import Mathlib

/-!
Verification of the nfstest packet-trace engine against its specification.

The definitions below are a shallow embedding of the Python sources:
  * packet/transport/rdmainfo.py — RDMA reassembly (RDMAseg, RDMAsegment, RDMAinfo)
  * packet/transport/ddp.py, rdmap.py, mpa.py — iWARP layer decoders
  * packet/pkt.py — packet object and layer handles
  * packet/link/vlan.py — stacked VLAN decoding
  * packet/pktt.py — expression matcher (unparse) and trace positioning (match/rewind)

Python byte strings are embedded as `List Nat`, Python dicts keyed by handle as
insertion-ordered association lists, and Python object mutation as explicit
state passing.  Machine integers in the sources are plain Python ints, so they
are embedded as `Nat`/`Int` (PSN arithmetic can go below zero in the source,
hence `Int` there).
-/

set_option autoImplicit false

namespace NFStest

/-- A Python byte string, embedded as a list of byte values. -/
abbrev Bytes := List Nat

/-- Python slice `l[a:b]` for non-negative `a`, `b` (as used by
`reassemble_rdma_reads`): take up to `b`, then drop `a`. -/
def pyslice (l : Bytes) (a b : Nat) : Bytes := (l.take b).drop a

/-- Python slice `l[a:]`. -/
def pysliceFrom (l : Bytes) (a : Nat) : Bytes := l.drop a

/-! ### RDMAseg — RDMA sub-segment (rdmainfo.py lines 28-88)

A sub-segment covers the PSN window `[spsn, epsn]`; `fraglist` is the ordered
fragment vector indexed by `psn - spsn`.  PSN bounds are kept as `Int` since
the source computes them with Python int arithmetic (`psn + dmalen/iosize - 1`
can in principle go negative). -/

structure RDMAseg where
  spsn : Int
  epsn : Int
  dmalen : Nat
  fraglist : List Bytes
deriving DecidableEq

/-- The `for i in range(index - nlen): fraglist.append(b"")` loop of
`RDMAseg.insert_data`: append `count` empty byte strings. -/
def appendEmpty (fraglist : List Bytes) : Nat → List Bytes
  | 0 => fraglist
  | n + 1 => appendEmpty (fraglist ++ [[]]) n

/-- `RDMAseg.insert_data(psn, data)` (rdmainfo.py lines 50-70).  Returns the
Python return value together with the updated sub-segment. -/
def RDMAseg.insert_data (s : RDMAseg) (psn : Int) (data : Bytes) : Bool × RDMAseg :=
  if psn ≥ s.spsn ∧ psn ≤ s.epsn then
    let index := (psn - s.spsn).toNat
    let nlen := s.fraglist.length
    if index < nlen then
      (true, { s with fraglist := s.fraglist.set index data })
    else
      (true, { s with fraglist := appendEmpty s.fraglist (index - nlen) ++ [data] })
  else
    (false, s)

/-- Concatenation of all fragments of a sub-segment (the `for fragdata in
self.fraglist: data += fragdata` loop). -/
def RDMAseg.concatFrags (s : RDMAseg) : Bytes :=
  s.fraglist.foldl (fun a f => a ++ f) []

/-- `RDMAseg.get_data(padding)` (rdmainfo.py lines 72-80).  With
`padding=False` and more accumulated bytes than `dmalen` the source returns
`data[:self.dmalen-len(data)]`; the slice bound is negative there, so this is
the first `dmalen` bytes. -/
def RDMAseg.get_data (s : RDMAseg) (padding : Bool) : Bytes :=
  let data := s.concatFrags
  if ¬padding ∧ data.length > s.dmalen then data.take s.dmalen else data

/-- `RDMAseg.get_size()` (rdmainfo.py lines 82-88). -/
def RDMAseg.get_size (s : RDMAseg) : Nat :=
  s.fraglist.foldl (fun a f => a + f.length) 0

/-! ### RPC-over-RDMA header data used by the reassembly engine

`RPCoRDMA` (packet/application/rpcordma.py, consumed by rdmainfo.py) carries
the chunk lists: `reads` is a flat list of read segments (each with an XDR
`position`), `writes` a list of write chunks (each a list of plain segments)
and `reply` an optional write-chunk-like target.  `data` is the reduced
message payload saved on the RDMA_MSG send. -/

/-- A plain RDMA segment from a chunk list: `(handle, length, offset)` plus,
for read segments only, the XDR `position` attribute
(`getattr(rdma_seg, "position", 0)` in the source). -/
structure XdrSeg where
  handle : Nat
  offset : Nat
  length : Nat
  position : Option Nat
deriving DecidableEq

/-- A write chunk: `chunk.target` is its list of segments. -/
structure WriteChunk where
  target : List XdrSeg
deriving DecidableEq

/-- The fields of the RPCoRDMA layer object consumed by rdmainfo.py. -/
structure RPCoRDMA where
  data : Bytes
  reads : List XdrSeg
  writes : List WriteChunk
  reply : Option WriteChunk
deriving DecidableEq

/-! ### RDMAsegment — RDMA segment keyed by handle (rdmainfo.py lines 90-233) -/

structure RDMAsegment where
  handle : Nat
  offset : Nat
  length : Nat
  xdrpos : Nat
  rpcrdma : Option RPCoRDMA
  rhandle : Option Nat
  roffset : Option Nat
  rlength : Option Nat
  /-- iWarp data fragments, a dict keyed by DDP offset. -/
  fragments : List (Nat × Bytes)
  /-- List of sub-segments. -/
  seglist : List RDMAseg
deriving DecidableEq

/-- `RDMAsegment.__init__(rdma_seg, rpcrdma)` (rdmainfo.py lines 97-114). -/
def RDMAsegment.mk0 (seg : XdrSeg) (rpcrdma : Option RPCoRDMA) : RDMAsegment :=
  { handle := seg.handle
    offset := seg.offset
    length := seg.length
    xdrpos := seg.position.getD 0
    rpcrdma := rpcrdma
    rhandle := none
    roffset := none
    rlength := none
    fragments := []
    seglist := [] }

/-- `RDMAsegment.valid_psn(psn)` (rdmainfo.py lines 121-128). -/
def RDMAsegment.valid_psn (r : RDMAsegment) (psn : Int) : Bool :=
  r.seglist.any (fun seg => psn ≥ seg.spsn && psn ≤ seg.epsn)

/-- The `epsn` computation of `add_sub_segment`:
`psn + int(dmalen/iosize) - 1 + (1 if dmalen%iosize else 0)` — the source's
`int(dmalen/iosize)` is integer division for the magnitudes a DMA length can
take. -/
def epsnCalc (psn : Int) (dmalen iosize : Nat) : Int :=
  psn + (dmalen / iosize : Nat) - 1 + (if dmalen % iosize ≠ 0 then 1 else 0)

/-- Replace the first sub-segment with the given `spsn` (the source mutates
the list entry found by the `for item in self.seglist` search). -/
def replaceSub (spsn : Int) (seg : RDMAseg) : List RDMAseg → List RDMAseg
  | [] => []
  | item :: rest =>
    if item.spsn = spsn then seg :: rest else item :: replaceSub spsn seg rest

/-- `RDMAsegment.add_sub_segment(psn, dmalen, only, iosize)` (rdmainfo.py
lines 130-168).  Returns the updated segment together with the sub-segment
the source returns (the mutated or newly appended one). -/
def RDMAsegment.add_sub_segment (r : RDMAsegment) (psn : Int) (dmalen : Nat)
    (only : Bool) (iosize : Nat) : RDMAsegment × RDMAseg :=
  match r.seglist.find? (fun item => item.spsn = psn) with
  | some seg =>
    if only then
      let seg' := { seg with epsn := psn }
      ({ r with seglist := replaceSub psn seg' r.seglist }, seg')
    else if iosize = 0 then
      -- retransmission of a Read Request: no data, nothing changes
      (r, seg)
    else
      let seg' := { seg with epsn := epsnCalc psn seg.dmalen iosize }
      ({ r with seglist := replaceSub psn seg' r.seglist }, seg')
  | none =>
    let epsn := if only then psn else if iosize = 0 then psn else epsnCalc psn dmalen iosize
    let seg : RDMAseg := { spsn := psn, epsn := epsn, dmalen := dmalen, fraglist := [] }
    ({ r with seglist := r.seglist ++ [seg] }, seg)

/-- The `for seg in self.seglist` loop of `RDMAsegment.add_data`: insert into
the first sub-segment whose `insert_data` returns True, leave the rest alone. -/
def insertFirstValid (psn : Int) (data : Bytes) : List RDMAseg → List RDMAseg
  | [] => []
  | seg :: rest =>
    match seg.insert_data psn data with
    | (true, seg') => seg' :: rest
    | (false, _) => seg :: insertFirstValid psn data rest

/-- `RDMAsegment.add_data(psn, data)` (rdmainfo.py lines 170-177): insert the
fragment into the first sub-segment whose PSN window contains `psn`. -/
def RDMAsegment.add_data (r : RDMAsegment) (psn : Int) (data : Bytes) : RDMAsegment :=
  { r with seglist := insertFirstValid psn data r.seglist }

/-- `RDMAsegment.get_offset()` (rdmainfo.py lines 221-223). -/
def RDMAsegment.get_offset (r : RDMAsegment) : Nat :=
  match r.roffset with
  | none => r.offset
  | some o => o

/-- Insertion sort used to embed Python's `sorted(...)` over `Nat` keys. -/
def insertSorted (x : Nat) : List Nat → List Nat
  | [] => [x]
  | y :: ys => if x ≤ y then x :: y :: ys else y :: insertSorted x ys

/-- Python `sorted(l)` for a list of distinct `Nat` keys. -/
def sortNat (l : List Nat) : List Nat := l.foldr insertSorted []

/-- Dict lookup `self.fragments[offset]` (always present at use sites). -/
def fragLookup (fragments : List (Nat × Bytes)) (off : Nat) : Bytes :=
  match fragments.find? (fun p => p.1 = off) with
  | some p => p.2
  | none => []

/-- The iWarp branch of `RDMAsegment.get_data`/`get_size`: walk the fragment
offsets in ascending order, filling gaps before each fragment with `bytes(count)`
(zero bytes).  Returns the accumulated data. -/
def iwarpConcat (fragments : List (Nat × Bytes)) (nextoff : Nat) : List Nat → Bytes
  | [] => []
  | off :: rest =>
    let count := off - nextoff
    let gap : Bytes := List.replicate count 0
    let frag := fragLookup fragments off
    gap ++ frag ++ iwarpConcat fragments (off + frag.length) rest

/-- `RDMAsegment.get_data(padding)` (rdmainfo.py lines 179-199). -/
def RDMAsegment.get_data (r : RDMAsegment) (padding : Bool) : Bytes :=
  if r.seglist.length ≠ 0 then
    r.seglist.foldl (fun a seg => a ++ seg.get_data padding) []
  else if r.fragments.length ≠ 0 then
    let data := iwarpConcat r.fragments r.get_offset (sortNat (r.fragments.map (fun p => p.1)))
    if ¬padding ∧ data.length > r.length then data.take r.length else data
  else
    []

/-- The iWarp branch of `get_size`: sum the gap counts and fragment lengths in
ascending offset order (the `count > 0` guard of the source is the `Nat`
truncated subtraction here). -/
def iwarpSize (fragments : List (Nat × Bytes)) (nextoff : Nat) : List Nat → Nat
  | [] => 0
  | off :: rest =>
    let frag := fragLookup fragments off
    (off - nextoff) + frag.length + iwarpSize fragments (off + frag.length) rest

/-- `RDMAsegment.get_size()` (rdmainfo.py lines 201-219).  Note the second
branch is a plain `else` in the source, so an empty fragment dict gives 0. -/
def RDMAsegment.get_size (r : RDMAsegment) : Nat :=
  if r.seglist.length ≠ 0 then
    r.seglist.foldl (fun a seg => a + seg.get_size) 0
  else
    iwarpSize r.fragments r.get_offset (sortNat (r.fragments.map (fun p => p.1)))

/-! ### RDMAinfo — the global segment table (rdmainfo.py lines 235-555)

`self._rdma_segments` is a Python dict `{handle: RDMAsegment}`; it is embedded
as an insertion-ordered association list (`values()` iterates in insertion
order), and mutation of a stored segment as updating its table entry. -/

/-- The RDMA segment table `{key: handle, value: RDMAsegment}`. -/
abbrev SegTable := List (Nat × RDMAsegment)

/-- `self._rdma_segments.get(handle)`. -/
def lookupSeg (tbl : SegTable) (handle : Nat) : Option RDMAsegment :=
  match tbl.find? (fun p => p.1 = handle) with
  | some p => some p.2
  | none => none

/-- Overwrite the entry stored under `handle` (object mutation in the source). -/
def updateSeg (tbl : SegTable) (handle : Nat) (r : RDMAsegment) : SegTable :=
  tbl.map (fun p => if p.1 = handle then (p.1, r) else p)

/-- `self._rdma_segments.pop(handle, None)`. -/
def popSeg (tbl : SegTable) (handle : Nat) : SegTable :=
  tbl.filter (fun p => p.1 ≠ handle)

/-- `RDMAinfo.del_rdma_segment(rsegment)` (rdmainfo.py lines 272-278). -/
def delRdmaSegment (tbl : SegTable) (rsegment : RDMAsegment) : SegTable :=
  let tbl := popSeg tbl rsegment.handle
  match rsegment.rhandle with
  | some rh => popSeg tbl rh
  | none => tbl

/-- `RDMAinfo.add_rdma_segment(rdma_seg, rpcrdma)` (rdmainfo.py lines 280-291):
a duplicate handle only updates the stored segment's `length` and returns the
stored segment; a new handle inserts a fresh `RDMAsegment` and returns None. -/
def addRdmaSegment (tbl : SegTable) (seg : XdrSeg) (rpcrdma : Option RPCoRDMA) :
    SegTable × Option RDMAsegment :=
  match lookupSeg tbl seg.handle with
  | some rsegment =>
    let rsegment' := { rsegment with length := seg.length }
    (updateSeg tbl seg.handle rsegment', some rsegment')
  | none =>
    (tbl ++ [(seg.handle, RDMAsegment.mk0 seg rpcrdma)], none)

/-- The RETH object header fields used by `add_rdma_data`. -/
structure RETH where
  r_key : Nat
  dma_len : Nat
deriving DecidableEq

/-- The `for rsegment in self._rdma_segments.values()` loop of `add_rdma_data`
(no RETH): find the first segment for which `valid_psn(psn)` holds and insert
the fragment there.  `payload` is `unpack.read(len(unpack))`. -/
def addDataFirstValid (psn : Int) (payload : Bytes) (only read : Bool) :
    SegTable → SegTable × Option RDMAsegment
  | [] => ([], none)
  | (h, rsegment) :: rest =>
    if rsegment.valid_psn psn then
      let rsegment' :=
        if read then
          -- modify sub-segment for RDMA read (first or only)
          let (r1, seg) := rsegment.add_sub_segment psn 0 only payload.length
          let (_, seg') := seg.insert_data psn payload
          { r1 with seglist := replaceSub seg.spsn seg' r1.seglist }
        else
          rsegment.add_data psn payload
      ((h, rsegment') :: rest, some rsegment')
    else
      let (rest', found) := addDataFirstValid psn payload only read rest
      ((h, rsegment) :: rest', found)

/-- `RDMAinfo.add_rdma_data(psn, unpack, reth, only, read)` (rdmainfo.py lines
293-321).  The unpack object is embedded as the remaining payload bytes. -/
def addRdmaData (tbl : SegTable) (psn : Int) (payload : Bytes) (reth : Option RETH)
    (only read : Bool) : SegTable × Option RDMAsegment :=
  match reth with
  | some reth =>
    match lookupSeg tbl reth.r_key with
    | some rsegment =>
      let size := payload.length
      let (r1, seg) := rsegment.add_sub_segment psn reth.dma_len only size
      let rsegment' :=
        if size > 0 then
          let (_, seg') := seg.insert_data psn payload
          { r1 with seglist := replaceSub seg.spsn seg' r1.seglist }
        else r1
      (updateSeg tbl reth.r_key rsegment', some rsegment')
    | none => (tbl, none)
  | none => addDataFirstValid psn payload only read tbl

/-- The iWarp RDMAP-layer fields consumed by `add_iwarp_data` and the
read-response-last test of `reassemble_rdma_reads`. -/
structure IwarpFrag where
  stag : Nat
  offset : Nat
  lastfl : Nat
deriving DecidableEq

/-- Dict store `self.fragments[offset] = data` (`RDMAsegment.add_fragment`). -/
def storeFragment (fragments : List (Nat × Bytes)) (off : Nat) (data : Bytes) :
    List (Nat × Bytes) :=
  if (fragments.find? (fun p => p.1 = off)).isSome then
    fragments.map (fun p => if p.1 = off then (off, data) else p)
  else
    fragments ++ [(off, data)]

/-- `RDMAinfo.add_iwarp_data(rdmap, unpack)` (rdmainfo.py lines 323-328). -/
def addIwarpData (tbl : SegTable) (rdmap : IwarpFrag) (payload : Bytes) :
    SegTable × Option RDMAsegment :=
  match lookupSeg tbl rdmap.stag with
  | some rsegment =>
    let rsegment' := { rsegment with fragments := storeFragment rsegment.fragments rdmap.offset payload }
    (updateSeg tbl rdmap.stag rsegment', some rsegment')
  | none => (tbl, none)

/-! ### reassemble_rdma_reads (rdmainfo.py lines 342-416) -/

/-- The first `for seg in rpcrdma.reads` loop: resolve every read segment's
handle in the table and check that all its data has been accounted for;
if any segment is missing or incomplete the source returns early (None). -/
def resolveReads (tbl : SegTable) : List XdrSeg → Option (List RDMAsegment)
  | [] => some []
  | seg :: rest =>
    match lookupSeg tbl seg.handle with
    | none => none
    | some rsegment =>
      if rsegment.get_size < rsegment.length then none
      else
        match resolveReads tbl rest with
        | none => none
        | some l => some (rsegment :: l)

/-- Remove duplicates keeping first occurrences (the keys of the
`read_chunks` dict built by `setdefault`). -/
def dedupNat (l : List Nat) : List Nat :=
  l.foldl (fun acc x => if x ∈ acc then acc else acc ++ [x]) []

/-- The read chunk at `xdrpos`: all resolved segments with that XDR position,
in list order (`read_chunks.setdefault(xdrpos, []).append(rsegment)`). -/
def chunkAt (rsegs : List RDMAsegment) (xdrpos : Nat) : List RDMAsegment :=
  rsegs.filter (fun r => r.xdrpos = xdrpos)

/-- The `for xdrpos in sorted(read_chunks.keys())` reassembly loop of
`reassemble_rdma_reads` (rdmainfo.py lines 392-412), carrying `(data, offset)`
exactly as the source does: when reduced-message bytes precede the chunk the
source appends `reduced_data[offset:size]` with `size = xdrpos - len(data)`
and then sets `offset = size`. -/
def spliceChunks (reduced : Bytes) (rsegs : List RDMAsegment) :
    List Nat → Bytes × Nat → Bytes × Nat
  | [], acc => acc
  | xdrpos :: rest, (data, offset) =>
    let (data, offset) :=
      if xdrpos > data.length then
        let size := xdrpos - data.length
        (data ++ pyslice reduced offset size, size)
      else (data, offset)
    let data := (chunkAt rsegs xdrpos).foldl
      (fun d rsegment => d ++ rsegment.get_data (!(xdrpos = 0))) data
    spliceChunks reduced rsegs rest (data, offset)

/-- The table after the `self.del_rdma_segment(rsegment)` calls made while
walking the chunks. -/
def delResolved (tbl : SegTable) (rsegs : List RDMAsegment) : SegTable :=
  rsegs.foldl delRdmaSegment tbl

/-- The reassembly part of `reassemble_rdma_reads` (rdmainfo.py lines
372-416), entered once the last read response fragment has been added and
`rsegment` located: consult the saved RPCoRDMA object, check that every read
segment is complete, and splice the read chunks into the reduced message. -/
def reassembleCore (tbl : SegTable) (rsegment : RDMAsegment) :
    SegTable × Option Bytes :=
  match rsegment.rpcrdma with
  | none => (tbl, none)
  | some rpcrdma =>
    let reduced_data := rpcrdma.data
    match resolveReads tbl rpcrdma.reads with
    | none => (tbl, none)
    | some rsegs =>
      let positions := sortNat (dedupNat (rsegs.map (fun r => r.xdrpos)))
      let (data, offset) := spliceChunks reduced_data rsegs positions ([], 0)
      let data :=
        if reduced_data.length > offset then data ++ pysliceFrom reduced_data offset
        else data
      (delResolved tbl rsegs, some data)

/-- `RDMAinfo.reassemble_rdma_reads(unpack, psn, only, rdmap)` (rdmainfo.py
lines 342-416).  For InfiniBand traffic `rdmap` is None and the fragment is
added by PSN (`read=only`); for iWarp the fragment is added by STag and the
reassembly only proceeds on a read response last (`rdmap.lastfl != 0`). -/
def reassembleRdmaReads (tbl : SegTable) (payload : Bytes) (psn : Int)
    (only : Bool) (rdmap : Option IwarpFrag) : SegTable × Option Bytes :=
  let (tbl1, rsegOpt) :=
    match rdmap with
    | none => addRdmaData tbl psn payload none only only
    | some iw => addIwarpData tbl iw payload
  match rsegOpt with
  | none => (tbl1, none)
  | some rsegment =>
    match rdmap with
    | some iw =>
      if iw.lastfl = 0 then (tbl1, none) else reassembleCore tbl1 rsegment
    | none => reassembleCore tbl1 rsegment

/-! ### process_rdma_segments (rdmainfo.py lines 418-555) -/

/-- The `if rpcrdma.reads:` phase: register every segment of the read chunk
list (`self.add_rdma_segment(rdma_seg, rpcrdma)`). -/
def processReads (tbl : SegTable) (rpcrdma : RPCoRDMA) : SegTable :=
  rpcrdma.reads.foldl (fun t seg => (addRdmaSegment t seg (some rpcrdma)).1) tbl

/-- The `for seg in chunk.target` loop of the `if rpcrdma.writes:` phase:
register each segment and collect those that were already known
(`if rsegment:`). -/
def processWriteChunkAux (tbl : SegTable) (acc : List RDMAsegment) :
    List XdrSeg → SegTable × List RDMAsegment
  | [] => (tbl, acc)
  | seg :: rest =>
    match addRdmaSegment tbl seg none with
    | (t, some rsegment) => processWriteChunkAux t (acc ++ [rsegment]) rest
    | (t, none) => processWriteChunkAux t acc rest

/-- One write chunk of the `if rpcrdma.writes:` phase. -/
def processWriteChunk (tbl : SegTable) (chunk : WriteChunk) :
    SegTable × List RDMAsegment :=
  processWriteChunkAux tbl [] chunk.target

/-- The `for chunk in rpcrdma.writes` loop: append one segment list per
chunk, dropping a chunk whose list stayed empty
(`self.rdma_write_chunks.pop()`). -/
def processWritesAux (tbl : SegTable) (acc : List (List RDMAsegment)) :
    List WriteChunk → SegTable × List (List RDMAsegment)
  | [] => (tbl, acc)
  | chunk :: rest =>
    let (t, cl) := processWriteChunk tbl chunk
    processWritesAux t (if cl.length = 0 then acc else acc ++ [cl]) rest

/-- The `if rpcrdma.writes:` phase: the shared `rdma_write_chunks` list is
cleared first, hence the empty accumulator. -/
def processWrites (tbl : SegTable) (rpcrdma : RPCoRDMA) :
    SegTable × List (List RDMAsegment) :=
  processWritesAux tbl [] rpcrdma.writes

/-- The `for rdma_seg in rpcrdma.reply.target` loop of the `if rpcrdma.reply:`
phase: register each segment; for the ones already known, concatenate their
padded data and delete them. -/
def processReplyAux (tbl : SegTable) (acc : Bytes) :
    List XdrSeg → SegTable × Bytes
  | [] => (tbl, acc)
  | seg :: rest =>
    match addRdmaSegment tbl seg none with
    | (t, some rsegment) =>
      processReplyAux (delRdmaSegment t rsegment) (acc ++ rsegment.get_data true) rest
    | (t, none) => processReplyAux t acc rest

/-- The `if rpcrdma.reply:` phase. -/
def processReply (tbl : SegTable) (chunk : WriteChunk) : SegTable × Bytes :=
  processReplyAux tbl [] chunk.target

/-- `RDMAinfo.process_rdma_segments(rpcrdma)` (rdmainfo.py lines 418-555).
State is `(segment table, shared rdma_write_chunks list)`; the returned
`Bytes` is the reply chunk data handed back to the RDMAP layer. -/
def processRdmaSegments (tbl : SegTable) (wchunks : List (List RDMAsegment))
    (rpcrdma : RPCoRDMA) : SegTable × List (List RDMAsegment) × Bytes :=
  let tbl := if rpcrdma.reads.length ≠ 0 then processReads tbl rpcrdma else tbl
  let (tbl, wchunks) :=
    if rpcrdma.writes.length ≠ 0 then processWrites tbl rpcrdma
    else (tbl, wchunks)
  match rpcrdma.reply with
  | some chunk =>
    let (tbl, replydata) := processReply tbl chunk
    (tbl, wchunks, replydata)
  | none => (tbl, wchunks, [])

/-! ### Theorems about `RDMAseg.insert_data` (claim C3) -/

theorem appendEmpty_eq (n : Nat) : ∀ l : List Bytes, appendEmpty l n = l ++ List.replicate n [] := by
  induction n with
  | zero => intro l; simp [appendEmpty]
  | succ n ih =>
    intro l
    simp only [appendEmpty, ih, List.append_assoc]
    rfl

/-- Claim C3: `insert_data(psn, data)` with `spsn <= psn <= epsn` stores `data`
at fragment index `psn - spsn` and returns True — replacing the slot when the
index is already within the fragment list, otherwise appending one empty byte
string per missing earlier index and then `data` — while a `psn` outside
`[spsn, epsn]` returns False and leaves the fragment list unchanged. -/
theorem insert_data_spec (s : RDMAseg) (psn : Int) (data : Bytes) :
    (s.spsn ≤ psn → psn ≤ s.epsn →
      s.insert_data psn data =
        (true,
         { s with fraglist :=
            if (psn - s.spsn).toNat < s.fraglist.length then
              s.fraglist.set (psn - s.spsn).toNat data
            else
              s.fraglist ++ List.replicate ((psn - s.spsn).toNat - s.fraglist.length) [] ++ [data] }) ∧
      ((s.insert_data psn data).2.fraglist.get? (psn - s.spsn).toNat = some data)) ∧
    (¬(s.spsn ≤ psn ∧ psn ≤ s.epsn) → s.insert_data psn data = (false, s)) := by
  constructor
  · intro h1 h2
    have hcond : psn ≥ s.spsn ∧ psn ≤ s.epsn := ⟨h1, h2⟩
    constructor
    · simp only [RDMAseg.insert_data, if_pos hcond, appendEmpty_eq]
      by_cases hlt : (psn - s.spsn).toNat < s.fraglist.length
      · simp [hlt]
      · simp [hlt]
    · simp only [RDMAseg.insert_data, if_pos hcond, appendEmpty_eq]
      by_cases hlt : (psn - s.spsn).toNat < s.fraglist.length
      · simp only [if_pos hlt]
        exact List.get?_set_eq_of_lt data hlt
      · simp only [if_neg hlt]
        push_neg at hlt
        rw [List.append_assoc, List.get?_append_right hlt]
        have hlen : (List.replicate ((psn - s.spsn).toNat - s.fraglist.length) ([] : Bytes)).length
            = (psn - s.spsn).toNat - s.fraglist.length := List.length_replicate _ _
        rw [List.get?_append_right (by omega)]
        simp [hlen]
  · intro h
    have hcond : ¬(psn ≥ s.spsn ∧ psn ≤ s.epsn) := by
      intro hc; exact h ⟨hc.1, hc.2⟩
    simp [RDMAseg.insert_data, hcond]

/-- Witness for C3: a concrete in-range insert with a hole (psn 7 into window
[5, 9] over a one-fragment list) and a concrete out-of-range discard. -/
theorem insert_data_spec_witness :
    (RDMAseg.insert_data ⟨5, 9, 12, [[1, 2]]⟩ 7 [3, 4] =
      (true, ⟨5, 9, 12, [[1, 2], [], [3, 4]]⟩) ∧
     (RDMAseg.insert_data ⟨5, 9, 12, [[1, 2]]⟩ 7 [3, 4]).2.fraglist.get? 2 = some [3, 4]) ∧
    RDMAseg.insert_data ⟨5, 9, 12, [[1, 2]]⟩ 4 [3, 4] = (false, ⟨5, 9, 12, [[1, 2]]⟩) := by
  refine ⟨?_, ?_⟩
  · have h := (insert_data_spec ⟨5, 9, 12, [[1, 2]]⟩ 7 [3, 4]).1 (by decide) (by decide)
    refine ⟨?_, h.2⟩
    rw [h.1]; decide
  · exact (insert_data_spec ⟨5, 9, 12, [[1, 2]]⟩ 4 [3, 4]).2 (by decide)

/-! ### Theorems about read-chunk padding (claim C2) -/

/-- Without padding, `RDMAseg.get_data` always yields the first `dmalen` bytes
of the accumulated fragments (the source truncates only when more bytes were
accumulated; otherwise `take` is the identity). -/
theorem getData_no_padding (s : RDMAseg) : s.get_data false = s.concatFrags.take s.dmalen := by
  by_cases h : s.concatFrags.length > s.dmalen
  · simp [RDMAseg.get_data, h]
  · have h2 : ¬s.concatFrags.length > s.dmalen := h
    push_neg at h
    simp [RDMAseg.get_data, h2, List.take_of_length_le h]

/-- With padding, `RDMAseg.get_data` yields every accumulated byte. -/
theorem getData_padding (s : RDMAseg) : s.get_data true = s.concatFrags := by
  simp [RDMAseg.get_data]

/-- Claim C2: during read-chunk reassembly a Position-Zero Read Chunk
(`xdr_position == 0`) is spliced without padding — its data is requested with
`padding=False`, which truncates each sub-segment to its declared DMA length
whenever more bytes were accumulated — while a chunk at a nonzero position
contributes all accumulated bytes (`padding=True`).  Stated for the generic
single-chunk configuration of `reassemble_rdma_reads`. -/
theorem read_chunk_padding_spec :
    (∀ s : RDMAseg, s.get_data false = s.concatFrags.take s.dmalen) ∧
    (∀ s : RDMAseg, s.get_data true = s.concatFrags) ∧
    (∀ (tbl : SegTable) (rsegment r0 : RDMAsegment) (rpc : RPCoRDMA) (s0 : XdrSeg),
      rsegment.rpcrdma = some rpc →
      rpc.reads = [s0] →
      lookupSeg tbl s0.handle = some r0 →
      r0.length ≤ r0.get_size →
      (reassembleCore tbl rsegment).2 =
        some (if r0.xdrpos = 0 then
                r0.get_data false ++ rpc.data
              else
                pyslice rpc.data 0 r0.xdrpos ++ r0.get_data true ++ rpc.data.drop r0.xdrpos)) := by
  refine ⟨getData_no_padding, getData_padding, ?_⟩
  intro tbl rsegment r0 rpc s0 hrpc hreads hlook hsize
  have hres : resolveReads tbl rpc.reads = some [r0] := by
    rw [hreads]
    simp [resolveReads, hlook, if_neg (by omega : ¬r0.get_size < r0.length)]
  simp only [reassembleCore, hrpc, hres]
  have hdedup : dedupNat [r0.xdrpos] = [r0.xdrpos] := by simp [dedupNat]
  have hsort : sortNat [r0.xdrpos] = [r0.xdrpos] := by simp [sortNat, insertSorted]
  have hchunk : chunkAt [r0] r0.xdrpos = [r0] := by simp [chunkAt]
  simp only [List.map, hdedup, hsort]
  by_cases hp : r0.xdrpos = 0
  · rw [hp] at hchunk
    rw [if_pos hp]
    simp only [spliceChunks, hp, List.length_nil, if_neg (by omega : ¬(0:Nat) > 0)]
    simp only [hchunk, List.foldl_cons, List.foldl_nil, List.nil_append]
    have hpad : (!decide True) = false := by decide
    rw [hpad]
    by_cases hlen : rpc.data.length > 0
    · rw [if_pos hlen]; simp [pysliceFrom]
    · rw [if_neg hlen]
      have hnil : rpc.data = [] := by
        cases h : rpc.data with
        | nil => rfl
        | cons a l => rw [h] at hlen; simp at hlen
      simp [hnil]
  · rw [if_neg hp]
    have hgt : r0.xdrpos > 0 := Nat.pos_of_ne_zero hp
    simp only [spliceChunks, List.length_nil, Nat.sub_zero, if_pos (by omega : r0.xdrpos > 0)]
    simp only [hchunk, List.foldl_cons, List.foldl_nil, List.nil_append]
    have hpad : (!decide (r0.xdrpos = 0)) = true := by simp [hp]
    rw [hpad]
    by_cases hlen : rpc.data.length > r0.xdrpos
    · rw [if_pos hlen]; simp [pysliceFrom, List.append_assoc]
    · rw [if_neg hlen]; push_neg at hlen
      simp [List.drop_eq_nil_of_le hlen]

/-- Witness for C2: a complete one-segment read chunk at each of the two
positions.  The segment at position 0 has 6 accumulated bytes for a 4-byte
DMA length and is truncated; the one at position 2 keeps its padding byte. -/
theorem read_chunk_padding_spec_witness :
    (RDMAseg.get_data ⟨0, 0, 4, [[1, 2, 3, 4, 9, 9]]⟩ false = [1, 2, 3, 4]) ∧
    (reassembleCore
        [(77, { RDMAsegment.mk0 ⟨77, 0, 4, some 0⟩
                  (some ⟨[5, 6], [⟨77, 0, 4, some 0⟩], [], none⟩) with
                seglist := [⟨0, 0, 4, [[1, 2, 3, 4, 9, 9]]⟩] })]
        { RDMAsegment.mk0 ⟨77, 0, 4, some 0⟩
            (some ⟨[5, 6], [⟨77, 0, 4, some 0⟩], [], none⟩) with
          seglist := [⟨0, 0, 4, [[1, 2, 3, 4, 9, 9]]⟩] }).2 =
      some [1, 2, 3, 4, 5, 6] := by
  constructor
  · have h := read_chunk_padding_spec.1 ⟨0, 0, 4, [[1, 2, 3, 4, 9, 9]]⟩
    rw [h]; decide
  · have h := read_chunk_padding_spec.2.2
      [(77, { RDMAsegment.mk0 ⟨77, 0, 4, some 0⟩
                (some ⟨[5, 6], [⟨77, 0, 4, some 0⟩], [], none⟩) with
              seglist := [⟨0, 0, 4, [[1, 2, 3, 4, 9, 9]]⟩] })]
      ({ RDMAsegment.mk0 ⟨77, 0, 4, some 0⟩
          (some ⟨[5, 6], [⟨77, 0, 4, some 0⟩], [], none⟩) with
        seglist := [⟨0, 0, 4, [[1, 2, 3, 4, 9, 9]]⟩] })
      ({ RDMAsegment.mk0 ⟨77, 0, 4, some 0⟩
          (some ⟨[5, 6], [⟨77, 0, 4, some 0⟩], [], none⟩) with
        seglist := [⟨0, 0, 4, [[1, 2, 3, 4, 9, 9]]⟩] })
      ⟨[5, 6], [⟨77, 0, 4, some 0⟩], [], none⟩ ⟨77, 0, 4, some 0⟩
      (by rfl) (by rfl) (by rfl) (by decide)
    rw [h]; decide

/-! ### Theorems about `RDMAinfo.add_rdma_segment` (claims C4 and C10) -/

theorem lookupSeg_updateSeg_self (tbl : SegTable) (h : Nat) (r : RDMAsegment)
    (hs : (lookupSeg tbl h).isSome) : lookupSeg (updateSeg tbl h r) h = some r := by
  induction tbl with
  | nil => simp [lookupSeg] at hs
  | cons p t ih =>
    by_cases hk : p.1 = h
    · simp [lookupSeg, updateSeg, List.find?, hk]
    · have hs' : (lookupSeg t h).isSome := by
        simpa [lookupSeg, List.find?, hk] using hs
      simpa [lookupSeg, updateSeg, List.find?, hk] using ih hs'

theorem lookupSeg_updateSeg_ne (tbl : SegTable) (h h' : Nat) (r : RDMAsegment)
    (hne : h' ≠ h) : lookupSeg (updateSeg tbl h r) h' = lookupSeg tbl h' := by
  induction tbl with
  | nil => simp [lookupSeg, updateSeg]
  | cons p t ih =>
    by_cases hk : p.1 = h
    · simp [lookupSeg, updateSeg, List.find?, hk, Ne.symm hne]
      simpa [lookupSeg, updateSeg] using ih
    · by_cases hk' : p.1 = h'
      · simp [lookupSeg, updateSeg, List.find?, hk, hk', hne]
      · simpa [lookupSeg, updateSeg, List.find?, hk, hk'] using ih

theorem keys_updateSeg (tbl : SegTable) (h : Nat) (r : RDMAsegment) :
    (updateSeg tbl h r).map (fun p => p.1) = tbl.map (fun p => p.1) := by
  induction tbl with
  | nil => rfl
  | cons p t ih =>
    by_cases hk : p.1 = h
    · simpa [updateSeg, hk] using ih
    · simpa [updateSeg, hk] using ih

/-- Claim C4: `add_rdma_segment` on a handle already registered updates only
the stored segment's `length`: its offset, XDR position, sub-segments, iWARP
fragments, saved RPC-over-RDMA object and read-response binding are unchanged,
the handle still maps to the (updated) segment, every other table entry is
untouched and the set of registered handles is unchanged. -/
theorem add_rdma_segment_update_spec (tbl : SegTable) (seg : XdrSeg)
    (rpc : Option RPCoRDMA) (r : RDMAsegment)
    (hlook : lookupSeg tbl seg.handle = some r) :
    (addRdmaSegment tbl seg rpc).2 = some { r with length := seg.length } ∧
    lookupSeg (addRdmaSegment tbl seg rpc).1 seg.handle = some { r with length := seg.length } ∧
    (∀ h, h ≠ seg.handle →
      lookupSeg (addRdmaSegment tbl seg rpc).1 h = lookupSeg tbl h) ∧
    (addRdmaSegment tbl seg rpc).1.map (fun p => p.1) = tbl.map (fun p => p.1) ∧
    ({ r with length := seg.length } : RDMAsegment).offset = r.offset ∧
    ({ r with length := seg.length } : RDMAsegment).xdrpos = r.xdrpos ∧
    ({ r with length := seg.length } : RDMAsegment).seglist = r.seglist ∧
    ({ r with length := seg.length } : RDMAsegment).fragments = r.fragments ∧
    ({ r with length := seg.length } : RDMAsegment).rpcrdma = r.rpcrdma ∧
    ({ r with length := seg.length } : RDMAsegment).rhandle = r.rhandle ∧
    ({ r with length := seg.length } : RDMAsegment).length = seg.length := by
  have hsome : (lookupSeg tbl seg.handle).isSome := by rw [hlook]; rfl
  refine ⟨?_, ?_, ?_, ?_, rfl, rfl, rfl, rfl, rfl, rfl, rfl⟩
  · simp [addRdmaSegment, hlook]
  · simp only [addRdmaSegment, hlook]
    exact lookupSeg_updateSeg_self tbl seg.handle _ hsome
  · intro h hne
    simp only [addRdmaSegment, hlook]
    exact lookupSeg_updateSeg_ne tbl seg.handle h _ hne
  · simp only [addRdmaSegment, hlook]
    exact keys_updateSeg tbl seg.handle _

/-- Witness for C4: re-registering handle 9 with a new declared length 512
over a table whose stored segment has accumulated data. -/
theorem add_rdma_segment_update_spec_witness :
    (addRdmaSegment
        [(9, { RDMAsegment.mk0 ⟨9, 2, 64, some 4⟩ none with
               seglist := [⟨0, 0, 64, [[1, 2]]⟩] }),
         (13, RDMAsegment.mk0 ⟨13, 0, 8, none⟩ none)]
        ⟨9, 7, 512, none⟩ none).2 =
      some { RDMAsegment.mk0 ⟨9, 2, 64, some 4⟩ none with
             seglist := [⟨0, 0, 64, [[1, 2]]⟩], length := 512 } ∧
    lookupSeg (addRdmaSegment
        [(9, { RDMAsegment.mk0 ⟨9, 2, 64, some 4⟩ none with
               seglist := [⟨0, 0, 64, [[1, 2]]⟩] }),
         (13, RDMAsegment.mk0 ⟨13, 0, 8, none⟩ none)]
        ⟨9, 7, 512, none⟩ none).1 13 =
      some (RDMAsegment.mk0 ⟨13, 0, 8, none⟩ none) := by
  have h := add_rdma_segment_update_spec
    [(9, { RDMAsegment.mk0 ⟨9, 2, 64, some 4⟩ none with
           seglist := [⟨0, 0, 64, [[1, 2]]⟩] }),
     (13, RDMAsegment.mk0 ⟨13, 0, 8, none⟩ none)]
    ⟨9, 7, 512, none⟩ none
    ({ RDMAsegment.mk0 ⟨9, 2, 64, some 4⟩ none with seglist := [⟨0, 0, 64, [[1, 2]]⟩] })
    (by rfl)
  refine ⟨?_, ?_⟩
  · rw [h.1]
  · rw [h.2.2.1 13 (by decide)]; rfl

theorem lookupSeg_append (t1 t2 : SegTable) (h : Nat) :
    lookupSeg (t1 ++ t2) h =
      match lookupSeg t1 h with
      | some r => some r
      | none => lookupSeg t2 h := by
  induction t1 with
  | nil => simp [lookupSeg]
  | cons p t ih =>
    by_cases hk : p.1 = h
    · simp [lookupSeg, List.find?, hk]
    · simpa [lookupSeg, List.find?, hk] using ih

theorem lookup_addRdmaSegment_ne (tbl : SegTable) (seg : XdrSeg)
    (rpc : Option RPCoRDMA) (h : Nat) (hne : h ≠ seg.handle) :
    lookupSeg (addRdmaSegment tbl seg rpc).1 h = lookupSeg tbl h := by
  cases hl : lookupSeg tbl seg.handle with
  | some r =>
    simp only [addRdmaSegment, hl]
    exact lookupSeg_updateSeg_ne tbl seg.handle h _ hne
  | none =>
    simp only [addRdmaSegment, hl]
    rw [lookupSeg_append]
    cases h2 : lookupSeg tbl h with
    | some r => rfl
    | none => simp [lookupSeg, List.find?, Ne.symm hne]

/-- `{ mk0 seg rpc with length := seg.length }` is `mk0 seg rpc` itself: the
constructor already sets that length. -/
theorem mk0_update_length (seg : XdrSeg) (rpc : Option RPCoRDMA) :
    { RDMAsegment.mk0 seg rpc with length := seg.length } = RDMAsegment.mk0 seg rpc := rfl

/-- First sighting of a write chunk: every segment handle is new, so the
table grows but nothing is collected. -/
theorem processWriteChunkAux_fresh (target : List XdrSeg) :
    ∀ (tbl : SegTable) (acc : List RDMAsegment),
    (∀ s ∈ target, lookupSeg tbl s.handle = none) →
    (target.map XdrSeg.handle).Nodup →
    processWriteChunkAux tbl acc target =
      (tbl ++ target.map (fun s => (s.handle, RDMAsegment.mk0 s none)), acc) := by
  induction target with
  | nil => intro tbl acc _ _; simp [processWriteChunkAux]
  | cons s rest ih =>
    intro tbl acc hfresh hnodup
    have hs : lookupSeg tbl s.handle = none := hfresh s (by simp)
    have hadd : addRdmaSegment tbl s none =
        (tbl ++ [(s.handle, RDMAsegment.mk0 s none)], none) := by
      simp [addRdmaSegment, hs]
    simp only [processWriteChunkAux, hadd]
    have hnodup2 : (s.handle :: rest.map XdrSeg.handle).Nodup := by
      simpa using hnodup
    have hnodup' : (rest.map XdrSeg.handle).Nodup := (List.nodup_cons.mp hnodup2).2
    have hne : ∀ x ∈ rest, x.handle ≠ s.handle := by
      intro x hx hcontra
      exact (List.nodup_cons.mp hnodup2).1 (hcontra ▸ List.mem_map_of_mem XdrSeg.handle hx)
    have hfresh' : ∀ x ∈ rest, lookupSeg (tbl ++ [(s.handle, RDMAsegment.mk0 s none)]) x.handle = none := by
      intro x hx
      rw [lookupSeg_append, hfresh x (by simp [hx])]
      simp [lookupSeg, List.find?, Ne.symm (hne x hx)]
    rw [ih _ acc hfresh' hnodup']
    simp

/-- A write-chunk pass leaves lookups of unrelated handles unchanged. -/
theorem processWriteChunkAux_lookup_ne (target : List XdrSeg) :
    ∀ (tbl : SegTable) (acc : List RDMAsegment) (h : Nat),
    (∀ s ∈ target, h ≠ s.handle) →
    lookupSeg (processWriteChunkAux tbl acc target).1 h = lookupSeg tbl h := by
  induction target with
  | nil => intro tbl acc h _; rfl
  | cons s rest ih =>
    intro tbl acc h hne
    have hne0 : h ≠ s.handle := hne s (by simp)
    cases hadd : addRdmaSegment tbl s none with
    | mk t ret =>
      have hpre : lookupSeg t h = lookupSeg tbl h := by
        have := lookup_addRdmaSegment_ne tbl s none h hne0
        rwa [hadd] at this
      cases ret with
      | some rsegment =>
        simp only [processWriteChunkAux, hadd]
        rw [ih t _ h (fun x hx => hne x (by simp [hx])), hpre]
      | none =>
        simp only [processWriteChunkAux, hadd]
        rw [ih t _ h (fun x hx => hne x (by simp [hx])), hpre]

/-- Second sighting of a write chunk: every segment handle resolves to a
previously registered segment, so each one is collected with its length
updated to the newly declared one. -/
theorem processWriteChunkAux_present (target : List XdrSeg) (f : XdrSeg → RDMAsegment) :
    ∀ (tbl : SegTable) (acc : List RDMAsegment),
    (∀ s ∈ target, lookupSeg tbl s.handle = some (f s)) →
    (target.map XdrSeg.handle).Nodup →
    (processWriteChunkAux tbl acc target).2 =
      acc ++ target.map (fun s => { f s with length := s.length }) := by
  induction target with
  | nil => intro tbl acc _ _; simp [processWriteChunkAux]
  | cons s rest ih =>
    intro tbl acc hpres hnodup
    have hs : lookupSeg tbl s.handle = some (f s) := hpres s (by simp)
    have hadd : addRdmaSegment tbl s none =
        (updateSeg tbl s.handle { f s with length := s.length },
         some { f s with length := s.length }) := by
      simp [addRdmaSegment, hs]
    simp only [processWriteChunkAux, hadd]
    have hnodup2 : (s.handle :: rest.map XdrSeg.handle).Nodup := by
      simpa using hnodup
    have hnodup' : (rest.map XdrSeg.handle).Nodup := (List.nodup_cons.mp hnodup2).2
    have hne : ∀ x ∈ rest, x.handle ≠ s.handle := by
      intro x hx hcontra
      exact (List.nodup_cons.mp hnodup2).1 (hcontra ▸ List.mem_map_of_mem XdrSeg.handle hx)
    have hpres' : ∀ x ∈ rest,
        lookupSeg (updateSeg tbl s.handle { f s with length := s.length }) x.handle = some (f x) := by
      intro x hx
      rw [lookupSeg_updateSeg_ne tbl s.handle x.handle _ (hne x hx)]
      exact hpres x (by simp [hx])
    rw [ih _ _ hpres' hnodup']
    simp

theorem lookupSeg_map_mk0_none (l : List XdrSeg) (h : Nat)
    (hne : ∀ x ∈ l, h ≠ x.handle) :
    lookupSeg (l.map (fun s => (s.handle, RDMAsegment.mk0 s none))) h = none := by
  induction l with
  | nil => rfl
  | cons t rest ih =>
    have h0 : h ≠ t.handle := hne t (by simp)
    simp only [List.map_cons, lookupSeg, List.find?]
    simp only [Ne.symm h0, decide_False]
    have := ih (fun x hx => hne x (by simp [hx]))
    simpa [lookupSeg] using this

theorem lookupSeg_map_mk0_mem (l : List XdrSeg) (s : XdrSeg) (hmem : s ∈ l)
    (hnodup : (l.map XdrSeg.handle).Nodup) :
    lookupSeg (l.map (fun x => (x.handle, RDMAsegment.mk0 x none))) s.handle =
      some (RDMAsegment.mk0 s none) := by
  induction l with
  | nil => cases hmem
  | cons t rest ih =>
    have hnodup2 : (t.handle :: rest.map XdrSeg.handle).Nodup := by simpa using hnodup
    rcases List.mem_cons.mp hmem with heq | hrest
    · subst heq
      simp [lookupSeg, List.find?]
    · have hne : t.handle ≠ s.handle := by
        intro hcontra
        exact (List.nodup_cons.mp hnodup2).1
          (hcontra ▸ List.mem_map_of_mem XdrSeg.handle hrest)
      simp only [List.map_cons, lookupSeg, List.find?, hne, decide_False]
      have := ih hrest (List.nodup_cons.mp hnodup2).2
      simpa [lookupSeg] using this

theorem lookupSeg_cons (p : Nat × RDMAsegment) (t : SegTable) (h : Nat) :
    lookupSeg (p :: t) h = if p.1 = h then some p.2 else lookupSeg t h := by
  by_cases hk : p.1 = h
  · simp [lookupSeg, List.find?, hk]
  · simp [lookupSeg, List.find?, hk]

theorem lookupSeg_popSeg_ne (tbl : SegTable) (h h' : Nat) (hne : h' ≠ h) :
    lookupSeg (popSeg tbl h) h' = lookupSeg tbl h' := by
  induction tbl with
  | nil => rfl
  | cons p t ih =>
    by_cases hk : p.1 = h
    · have hk2 : ¬p.1 = h' := by
        rw [hk]; intro he; exact hne he.symm
      have hfil : popSeg (p :: t) h = popSeg t h := by
        simp [popSeg, List.filter_cons, hk]
      rw [hfil, ih, lookupSeg_cons, if_neg hk2]
    · have hfil : popSeg (p :: t) h = p :: popSeg t h := by
        simp [popSeg, List.filter_cons, hk]
      rw [hfil, lookupSeg_cons, lookupSeg_cons, ih]

/-- All segment handles of a write-chunk list, in declaration order. -/
def chunkHandles (chunks : List WriteChunk) : List XdrSeg :=
  (chunks.map WriteChunk.target).join

theorem processWritesAux_fresh (chunks : List WriteChunk) :
    ∀ (tbl : SegTable) (acc : List (List RDMAsegment)),
    (∀ s ∈ chunkHandles chunks, lookupSeg tbl s.handle = none) →
    ((chunkHandles chunks).map XdrSeg.handle).Nodup →
    processWritesAux tbl acc chunks =
      (tbl ++ (chunkHandles chunks).map (fun s => (s.handle, RDMAsegment.mk0 s none)), acc) := by
  induction chunks with
  | nil => intro tbl acc _ _; simp [processWritesAux, chunkHandles]
  | cons chunk rest ih =>
    intro tbl acc hfresh hnodup
    have hjoin : chunkHandles (chunk :: rest) = chunk.target ++ chunkHandles rest := by
      simp [chunkHandles]
    rw [hjoin] at hfresh hnodup
    have hnd := List.nodup_append.mp (by simpa using hnodup)
    have hchunk := processWriteChunkAux_fresh chunk.target tbl []
      (fun s hs => hfresh s (List.mem_append_left _ hs)) hnd.1
    simp only [processWritesAux, processWriteChunk, hchunk]
    have hfresh' : ∀ x ∈ chunkHandles rest,
        lookupSeg (tbl ++ chunk.target.map (fun s => (s.handle, RDMAsegment.mk0 s none))) x.handle = none := by
      intro x hx
      rw [lookupSeg_append, hfresh x (List.mem_append_right _ hx)]
      exact lookupSeg_map_mk0_none chunk.target x.handle
        (fun y hy hcontra =>
          hnd.2.2 (List.mem_map_of_mem XdrSeg.handle hy) (hcontra ▸ List.mem_map_of_mem XdrSeg.handle hx))
    rw [ih _ _ hfresh' hnd.2.1]
    simp [hjoin, List.append_assoc]

theorem processWritesAux_present (chunks : List WriteChunk) :
    ∀ (tbl : SegTable) (acc : List (List RDMAsegment)),
    (∀ x ∈ chunkHandles chunks, lookupSeg tbl x.handle = some (RDMAsegment.mk0 x none)) →
    ((chunkHandles chunks).map XdrSeg.handle).Nodup →
    (∀ c ∈ chunks, c.target ≠ []) →
    (processWritesAux tbl acc chunks).2 =
      acc ++ chunks.map (fun c => c.target.map (fun s => RDMAsegment.mk0 s none)) := by
  induction chunks with
  | nil => intro tbl acc _ _ _; simp [processWritesAux]
  | cons chunk rest ih =>
    intro tbl acc hpres hnodup hne
    have hjoin : chunkHandles (chunk :: rest) = chunk.target ++ chunkHandles rest := by
      simp [chunkHandles]
    rw [hjoin] at hpres hnodup
    have hnd := List.nodup_append.mp (by simpa using hnodup)
    have hchunk := processWriteChunkAux_present chunk.target (fun s => RDMAsegment.mk0 s none) tbl []
      (fun s hs => hpres s (List.mem_append_left _ hs)) hnd.1
    have hmapeq : chunk.target.map (fun s => { RDMAsegment.mk0 s none with length := s.length }) =
        chunk.target.map (fun s => RDMAsegment.mk0 s none) := by
      exact List.map_congr_left (fun s _ => mk0_update_length s none)
    rw [hmapeq] at hchunk
    have hlen : (processWriteChunk tbl chunk).2.length ≠ 0 := by
      rw [processWriteChunk, hchunk]
      intro hcontra
      have h0 : chunk.target.map (fun s => RDMAsegment.mk0 s none) = [] :=
        List.length_eq_zero.mp (by simpa using hcontra)
      exact hne chunk (by simp) (List.map_eq_nil.mp h0)
    cases hpw : processWriteChunkAux tbl [] chunk.target with
    | mk t cl =>
      have hcl : cl = chunk.target.map (fun s => RDMAsegment.mk0 s none) := by
        have := hchunk; rw [hpw] at this; simpa using this
      simp only [processWritesAux, processWriteChunk, hpw]
      have hlen' : ¬cl.length = 0 := by
        have := hlen; rw [processWriteChunk, hpw] at this; simpa using this
      rw [if_neg hlen']
      have hpres' : ∀ x ∈ chunkHandles rest, lookupSeg t x.handle = some (RDMAsegment.mk0 x none) := by
        intro x hx
        have hneq : ∀ s ∈ chunk.target, x.handle ≠ s.handle := by
          intro s hs hcontra
          exact hnd.2.2 (List.mem_map_of_mem XdrSeg.handle hs)
            (hcontra ▸ List.mem_map_of_mem XdrSeg.handle hx)
        have := processWriteChunkAux_lookup_ne chunk.target tbl [] x.handle hneq
        rw [hpw] at this
        simp only at this
        rw [this]
        exact hpres x (List.mem_append_right _ hx)
      rw [ih t _ hpres' hnd.2.1 (fun c hc => hne c (by simp [hc]))]
      rw [hcl]
      simp

theorem processReplyAux_fresh (target : List XdrSeg) :
    ∀ (tbl : SegTable) (acc : Bytes),
    (∀ s ∈ target, lookupSeg tbl s.handle = none) →
    (target.map XdrSeg.handle).Nodup →
    processReplyAux tbl acc target =
      (tbl ++ target.map (fun s => (s.handle, RDMAsegment.mk0 s none)), acc) := by
  induction target with
  | nil => intro tbl acc _ _; simp [processReplyAux]
  | cons s rest ih =>
    intro tbl acc hfresh hnodup
    have hs : lookupSeg tbl s.handle = none := hfresh s (by simp)
    have hadd : addRdmaSegment tbl s none =
        (tbl ++ [(s.handle, RDMAsegment.mk0 s none)], none) := by
      simp [addRdmaSegment, hs]
    simp only [processReplyAux, hadd]
    have hnodup2 : (s.handle :: rest.map XdrSeg.handle).Nodup := by
      simpa using hnodup
    have hnodup' : (rest.map XdrSeg.handle).Nodup := (List.nodup_cons.mp hnodup2).2
    have hne : ∀ x ∈ rest, x.handle ≠ s.handle := by
      intro x hx hcontra
      exact (List.nodup_cons.mp hnodup2).1 (hcontra ▸ List.mem_map_of_mem XdrSeg.handle hx)
    have hfresh' : ∀ x ∈ rest, lookupSeg (tbl ++ [(s.handle, RDMAsegment.mk0 s none)]) x.handle = none := by
      intro x hx
      rw [lookupSeg_append, hfresh x (by simp [hx])]
      simp [lookupSeg, List.find?, Ne.symm (hne x hx)]
    rw [ih _ acc hfresh' hnodup']
    simp

theorem processReplyAux_present (target : List XdrSeg) (f : XdrSeg → RDMAsegment) :
    ∀ (tbl : SegTable) (acc : Bytes),
    (∀ x ∈ target, lookupSeg tbl x.handle = some (f x)) →
    (target.map XdrSeg.handle).Nodup →
    (∀ x ∈ target, (f x).rhandle = none) →
    (∀ x ∈ target, (f x).handle = x.handle) →
    (processReplyAux tbl acc target).2 =
      acc ++ (target.map (fun s => ({ f s with length := s.length }).get_data true)).join := by
  induction target with
  | nil => intro tbl acc _ _ _ _; simp [processReplyAux]
  | cons s rest ih =>
    intro tbl acc hpres hnodup hrh hhd
    have hs : lookupSeg tbl s.handle = some (f s) := hpres s (by simp)
    have hadd : addRdmaSegment tbl s none =
        (updateSeg tbl s.handle { f s with length := s.length },
         some { f s with length := s.length }) := by
      simp [addRdmaSegment, hs]
    simp only [processReplyAux, hadd]
    have hnodup2 : (s.handle :: rest.map XdrSeg.handle).Nodup := by
      simpa using hnodup
    have hne : ∀ x ∈ rest, x.handle ≠ s.handle := by
      intro x hx hcontra
      exact (List.nodup_cons.mp hnodup2).1 (hcontra ▸ List.mem_map_of_mem XdrSeg.handle hx)
    have hdel : delRdmaSegment (updateSeg tbl s.handle { f s with length := s.length })
        { f s with length := s.length } =
        popSeg (updateSeg tbl s.handle { f s with length := s.length }) (f s).handle := by
      simp [delRdmaSegment, hrh s (by simp)]
    rw [hdel]
    have hpres' : ∀ x ∈ rest,
        lookupSeg (popSeg (updateSeg tbl s.handle { f s with length := s.length }) (f s).handle)
          x.handle = some (f x) := by
      intro x hx
      rw [lookupSeg_popSeg_ne _ _ _ (by rw [hhd s (by simp)]; exact hne x hx)]
      rw [lookupSeg_updateSeg_ne tbl s.handle x.handle _ (hne x hx)]
      exact hpres x (by simp [hx])
    rw [ih _ _ hpres' (List.nodup_cons.mp hnodup2).2
      (fun x hx => hrh x (by simp [hx])) (fun x hx => hhd x (by simp [hx]))]
    simp

/-- Claim C10: `add_rdma_segment` returns the previously stored segment when
the handle already exists (with its length updated) and None when the handle
is newly inserted; consequently `process_rdma_segments` appends segments to
the shared `rdma_write_chunks` list, and concatenates reply-chunk data, only
on the second sighting of a chunk list — the call that first declares the
chunks registers them but contributes nothing. -/
theorem add_rdma_segment_return_spec :
    (∀ (tbl : SegTable) (seg : XdrSeg) (rpc : Option RPCoRDMA) (r : RDMAsegment),
      lookupSeg tbl seg.handle = some r →
      (addRdmaSegment tbl seg rpc).2 = some { r with length := seg.length }) ∧
    (∀ (tbl : SegTable) (seg : XdrSeg) (rpc : Option RPCoRDMA),
      lookupSeg tbl seg.handle = none →
      (addRdmaSegment tbl seg rpc).2 = none ∧
      (addRdmaSegment tbl seg rpc).1 = tbl ++ [(seg.handle, RDMAsegment.mk0 seg rpc)]) ∧
    (∀ (tbl : SegTable) (w0 : List (List RDMAsegment)) (rpc : RPCoRDMA),
      rpc.reads = [] → rpc.reply = none → rpc.writes ≠ [] →
      (∀ s ∈ chunkHandles rpc.writes, lookupSeg tbl s.handle = none) →
      ((chunkHandles rpc.writes).map XdrSeg.handle).Nodup →
      (∀ c ∈ rpc.writes, c.target ≠ []) →
      (processRdmaSegments tbl w0 rpc).2.1 = [] ∧
      (processRdmaSegments (processRdmaSegments tbl w0 rpc).1 [] rpc).2.1 =
        rpc.writes.map (fun c => c.target.map (fun s => RDMAsegment.mk0 s none))) ∧
    (∀ (tbl : SegTable) (w0 : List (List RDMAsegment)) (rpc : RPCoRDMA) (chunk : WriteChunk),
      rpc.reads = [] → rpc.writes = [] → rpc.reply = some chunk →
      (∀ s ∈ chunk.target, lookupSeg tbl s.handle = none) →
      (chunk.target.map XdrSeg.handle).Nodup →
      (processRdmaSegments tbl w0 rpc).2.2 = [] ∧
      (processRdmaSegments (processRdmaSegments tbl w0 rpc).1 w0 rpc).2.2 =
        (chunk.target.map (fun s => (RDMAsegment.mk0 s none).get_data true)).join) := by
  refine ⟨?_, ?_, ?_, ?_⟩
  · intro tbl seg rpc r hlook
    simp [addRdmaSegment, hlook]
  · intro tbl seg rpc hlook
    constructor
    · simp [addRdmaSegment, hlook]
    · simp [addRdmaSegment, hlook]
  · intro tbl w0 rpc hreads hreply hwne hfresh hnodup hnonempty
    have hrlen : ¬rpc.reads.length ≠ 0 := by simp [hreads]
    have hwlen : rpc.writes.length ≠ 0 := by
      simpa using fun hcontra => hwne (List.length_eq_zero.mp hcontra)
    have hrun1 := processWritesAux_fresh rpc.writes tbl [] hfresh hnodup
    constructor
    · simp only [processRdmaSegments, if_neg hrlen, if_pos hwlen, hreply, processWrites, hrun1]
    · have htbl1 : (processRdmaSegments tbl w0 rpc).1 =
          tbl ++ (chunkHandles rpc.writes).map (fun s => (s.handle, RDMAsegment.mk0 s none)) := by
        simp only [processRdmaSegments, if_neg hrlen, if_pos hwlen, hreply, processWrites, hrun1]
      have hpres : ∀ x ∈ chunkHandles rpc.writes,
          lookupSeg ((processRdmaSegments tbl w0 rpc).1) x.handle =
            some (RDMAsegment.mk0 x none) := by
        intro x hx
        rw [htbl1, lookupSeg_append, hfresh x hx]
        exact lookupSeg_map_mk0_mem (chunkHandles rpc.writes) x hx hnodup
      have hrun2 := processWritesAux_present rpc.writes
        ((processRdmaSegments tbl w0 rpc).1) [] hpres hnodup hnonempty
      simp only [processRdmaSegments, if_neg hrlen, if_pos hwlen, hreply, processWrites] at hrun2 ⊢
      rw [hrun2]
      simp
  · intro tbl w0 rpc chunk hreads hwrites hreply hfresh hnodup
    have hrlen : ¬rpc.reads.length ≠ 0 := by simp [hreads]
    have hwlen : ¬rpc.writes.length ≠ 0 := by simp [hwrites]
    have hrun1 := processReplyAux_fresh chunk.target tbl [] hfresh hnodup
    constructor
    · simp only [processRdmaSegments, if_neg hrlen, if_neg hwlen, hreply, processReply, hrun1]
    · have htbl1 : (processRdmaSegments tbl w0 rpc).1 =
          tbl ++ chunk.target.map (fun s => (s.handle, RDMAsegment.mk0 s none)) := by
        simp only [processRdmaSegments, if_neg hrlen, if_neg hwlen, hreply, processReply, hrun1]
      have hpres : ∀ x ∈ chunk.target,
          lookupSeg ((processRdmaSegments tbl w0 rpc).1) x.handle =
            some (RDMAsegment.mk0 x none) := by
        intro x hx
        rw [htbl1, lookupSeg_append, hfresh x hx]
        exact lookupSeg_map_mk0_mem chunk.target x hx hnodup
      have hrun2 := processReplyAux_present chunk.target (fun s => RDMAsegment.mk0 s none)
        ((processRdmaSegments tbl w0 rpc).1) [] hpres hnodup
        (fun x _ => rfl) (fun x _ => rfl)
      simp only [processRdmaSegments, if_neg hrlen, if_neg hwlen, hreply, processReply] at hrun2 ⊢
      rw [hrun2]
      have : ∀ x ∈ chunk.target,
          ({ RDMAsegment.mk0 x none with length := x.length }).get_data true =
            (RDMAsegment.mk0 x none).get_data true := by
        intro x _; rw [mk0_update_length]
      rw [List.map_congr_left this]
      simp

/-- Witness for C10: handle 21 is declared by a first message (nothing
collected) and sighted again by a second one (its segment is appended). -/
theorem add_rdma_segment_return_spec_witness :
    (addRdmaSegment [] ⟨21, 0, 4, none⟩ none).2 = none ∧
    (processRdmaSegments [] [] ⟨[], [], [⟨[⟨21, 0, 4, none⟩]⟩], none⟩).2.1 = [] ∧
    (processRdmaSegments
        (processRdmaSegments [] [] ⟨[], [], [⟨[⟨21, 0, 4, none⟩]⟩], none⟩).1 []
        ⟨[], [], [⟨[⟨21, 0, 4, none⟩]⟩], none⟩).2.1 =
      [[RDMAsegment.mk0 ⟨21, 0, 4, none⟩ none]] ∧
    (addRdmaSegment [(21, RDMAsegment.mk0 ⟨21, 0, 4, none⟩ none)] ⟨21, 0, 6, none⟩ none).2 =
      some { RDMAsegment.mk0 ⟨21, 0, 4, none⟩ none with length := 6 } := by
  refine ⟨?_, ?_, ?_, ?_⟩
  · exact (add_rdma_segment_return_spec.2.1 [] ⟨21, 0, 4, none⟩ none (by rfl)).1
  · exact (add_rdma_segment_return_spec.2.2.1 [] [] ⟨[], [], [⟨[⟨21, 0, 4, none⟩]⟩], none⟩
      rfl rfl (by decide) (by decide) (by decide) (by decide)).1
  · have h := (add_rdma_segment_return_spec.2.2.1 [] [] ⟨[], [], [⟨[⟨21, 0, 4, none⟩]⟩], none⟩
      rfl rfl (by decide) (by decide) (by decide) (by decide)).2
    rw [h]; rfl
  · exact add_rdma_segment_return_spec.1 [(21, RDMAsegment.mk0 ⟨21, 0, 4, none⟩ none)]
      ⟨21, 0, 6, none⟩ none (RDMAsegment.mk0 ⟨21, 0, 4, none⟩ none) (by rfl)

/-! ### The read-chunk splice of `reassemble_rdma_reads` on two chunks (claim C1)

The walk documented in the source (and in the spec) is: for each chunk in
ascending XDR position, copy the reduced-message bytes that precede the
chunk's position, then the chunk, and after the final chunk the tail of the
reduced message.  The code tracks the reduced-message cursor in `offset` but
appends `reduced_data[offset:size]` (with `size = xdrpos - len(data)`) and
then sets `offset = size`, so for a second chunk the slice bounds are wrong
whenever the first chunk was preceded by reduced bytes: the inter-chunk
reduced bytes are skipped there and appended after the last chunk instead.
The state below is what the engine holds after a Send declared two read
chunks (handles 10 and 11 at XDR positions 4 and 12, 4 bytes each, reduced
message `[1..8]`) and all but the final fragment (PSN 200, handle 11) have
been delivered. -/

/-- The saved RPC-over-RDMA object of the two-chunk scenario. -/
def c1Rpcrdma : RPCoRDMA :=
  { data := [1, 2, 3, 4, 5, 6, 7, 8]
    reads := [⟨10, 0, 4, some 4⟩, ⟨11, 0, 4, some 12⟩]
    writes := []
    reply := none }

/-- The segment table just before the last read response fragment arrives:
handle 10 is complete, handle 11 still awaits PSN 200. -/
def c1Table : SegTable :=
  [(10, { RDMAsegment.mk0 ⟨10, 0, 4, some 4⟩ (some c1Rpcrdma) with
          seglist := [⟨100, 100, 4, [[21, 22, 23, 24]]⟩] }),
   (11, { RDMAsegment.mk0 ⟨11, 0, 4, some 12⟩ (some c1Rpcrdma) with
          seglist := [⟨200, 200, 4, []⟩] })]

/-- What the code delivers on the last read response. -/
def c1CodeOutput : Bytes := [1, 2, 3, 4, 21, 22, 23, 24, 31, 32, 33, 34, 5, 6, 7, 8]

/-- What the documented walk prescribes: `reduced[0:4] ++ chunk₁ ++
reduced[4:8] ++ chunk₂` (the tail after position 12 is empty). -/
def c1SpecOutput : Bytes := [1, 2, 3, 4, 21, 22, 23, 24, 5, 6, 7, 8, 31, 32, 33, 34]

/-- Claim C1: on the last read response fragment (PSN 200) with every listed
segment complete, `reassemble_rdma_reads` returns a message — but not the one
built by the documented walk: the reduced bytes `[5,6,7,8]` that belong
between the two chunks are emitted after the second chunk. -/
theorem reassemble_reads_interchunk_value :
    (reassembleRdmaReads c1Table [31, 32, 33, 34] 200 false none).2 = some c1CodeOutput ∧
    c1CodeOutput ≠ c1SpecOutput := by
  exact ⟨by decide, by decide⟩

/-! ### Pkt — the packet object (packet/pkt.py) and its equality (claim C8)

A packet holds its decoded layers as named attributes plus the `_layers`
insertion-order list; layer names are embedded as the list of attribute names
of the layers present.  `pid` stands for the Python object identity. -/

structure Pkt where
  layers : List String
  pid : Nat
deriving DecidableEq

/-- `Pkt()` — a new packet starts with the `record` layer name. -/
def Pkt.new (pid : Nat) : Pkt := { layers := ["record"], pid := pid }

/-- `Pkt.add_layer(name, layer)` (pkt.py lines 162-166). -/
def Pkt.add_layer (p : Pkt) (name : String) : Pkt :=
  { p with layers := p.layers ++ [name] }

/-- `getattr(self, name, None) is not None` for a layer name: the packet has
a layer stored under that attribute name. -/
def Pkt.hasLayer (p : Pkt) (name : String) : Bool := p.layers.contains name

/-- The right operand of `Pkt.__eq__`: either a Python string or some other
object, known by its identity. -/
inductive PyOperand where
  | str (s : String)
  | obj (pid : Nat)
deriving DecidableEq

/-- `Pkt.__eq__(other)` (pkt.py lines 79-83): a string operand tests layer
presence of `other.lower()`; any non-string operand returns False. -/
def Pkt.eqPy (p : Pkt) : PyOperand → Bool
  | .str s => p.hasLayer s.toLower
  | .obj _ => false

/-- Counterexample to claim C8: for a non-string operand the source returns
False unconditionally, even when the operand is the very same object, so
`p == x` is not equivalent to object identity — `p == p` is False. -/
theorem pkt_eq_identity_counterexample :
    ¬ ((Pkt.new 42).eqPy (PyOperand.obj (Pkt.new 42).pid) = true ↔
       (Pkt.new 42).pid = (Pkt.new 42).pid) := by
  decide

/-- Claim C8 as amended: `p == s` for a string `s` holds exactly when `p` has
a layer named by the lower-cased `s`, and `p == x` for every non-string
operand `x` is False (the source never compares identities). -/
theorem pkt_eq_spec :
    (∀ (p : Pkt) (s : String), p.eqPy (PyOperand.str s) = true ↔ s.toLower ∈ p.layers) ∧
    (∀ (p : Pkt) (i : Nat), p.eqPy (PyOperand.obj i) = false) := by
  constructor
  · intro p s
    simp [Pkt.eqPy, Pkt.hasLayer, List.elem_iff]
  · intro p i
    rfl

/-! ### VLAN stacking (packet/link/vlan.py, claim C9)

`vlan_layers(pktt)` decodes VLAN headers until one whose `etype` is not a
VLAN EtherType; the decoded headers are embedded as the list of `VLAN`
objects the successive `VLAN(pktt)` constructor calls produce.  The result is
the list of `(layer name, layer)` pairs added to the packet, in order. -/

structure VLAN where
  pcp : Nat
  dei : Nat
  vid : Nat
  etype : Nat
  psize : Nat
deriving DecidableEq

/-- `vlan.etype == 0x8100 or vlan.etype == 0x88A8` (vlan.py line 38). -/
def isVlanEtype (v : VLAN) : Bool := v.etype = 0x8100 || v.etype = 0x88A8

/-- `vlan_layers(pktt)` (vlan.py lines 29-48).  `vlist` is the `vlan_list`
accumulator; a stream that runs out while another VLAN header is expected
makes the constructor fail (None). -/
def vlanLayers : List VLAN → List VLAN → Option (List (String × VLAN))
  | [], _ => none
  | v :: rest, vlist =>
    if isVlanEtype v then
      vlanLayers rest (vlist ++ [v])
    else
      some ((vlist.enum.map (fun p => ("vlan" ++ toString (p.1 + 1), p.2))) ++ [("vlan", v)])

/-- Counterexample to claim C9: a frame with one single VLAN tag (`etype`
0x0800, so n = 1) exposes the tag only under the handle `vlan`; the ordinal
handle `vlan1` the claim requires for the innermost tag does not exist, so
`vlan` cannot alias it. -/
theorem vlan_layers_counterexample :
    vlanLayers [⟨0, 0, 5, 0x0800, 20⟩] [] = some [("vlan", ⟨0, 0, 5, 0x0800, 20⟩)] ∧
    (∀ l, vlanLayers [⟨0, 0, 5, 0x0800, 20⟩] [] = some l → ¬∃ x, ("vlan1", x) ∈ l) := by
  refine ⟨by decide, ?_⟩
  intro l hl
  have : l = [("vlan", ⟨0, 0, 5, 0x0800, 20⟩)] := by
    have h0 : vlanLayers [⟨0, 0, 5, 0x0800, 20⟩] [] =
        some [("vlan", ⟨0, 0, 5, 0x0800, 20⟩)] := by decide
    rw [h0] at hl
    exact (Option.some_inj.mp hl).symm
  subst this
  rintro ⟨x, hx⟩
  simp at hx

theorem vlanLayers_go (vlast : VLAN) (hl : isVlanEtype vlast = false) :
    ∀ (vs : List VLAN) (vlist : List VLAN), (∀ v ∈ vs, isVlanEtype v = true) →
    vlanLayers (vs ++ [vlast]) vlist =
      some (((vlist ++ vs).enum.map (fun p => ("vlan" ++ toString (p.1 + 1), p.2))) ++
        [("vlan", vlast)]) := by
  intro vs
  induction vs with
  | nil =>
    intro vlist _
    simp [vlanLayers, hl]
  | cons v rest ih =>
    intro vlist hall
    have hv : isVlanEtype v = true := hall v (by simp)
    rw [List.cons_append]
    show (if isVlanEtype v then vlanLayers (rest ++ [vlast]) (vlist ++ [v]) else _) = _
    rw [hv]
    simp only [if_true]
    rw [ih (vlist ++ [v]) (fun x hx => hall x (by simp [hx]))]
    simp

/-- Claim C9 as amended: after decoding `n` stacked VLAN tags the packet
exposes ordinal handles `vlan1`, …, `vlan(n-1)` for the outer tags in
outer-to-inner order, and the innermost tag is exposed only under the handle
`vlan` — there is no ordinal handle for it and `vlan` is its sole name. -/
theorem vlan_layers_spec (vs : List VLAN) (vlast : VLAN)
    (hall : ∀ v ∈ vs, isVlanEtype v = true) (hl : isVlanEtype vlast = false) :
    vlanLayers (vs ++ [vlast]) [] =
      some ((vs.enum.map (fun p => ("vlan" ++ toString (p.1 + 1), p.2))) ++
        [("vlan", vlast)]) := by
  have h := vlanLayers_go vlast hl vs [] hall
  simpa using h

/-- Witness for C9: two stacked tags — the outer one becomes `vlan1`, the
inner one is exposed only as `vlan`. -/
theorem vlan_layers_spec_witness :
    vlanLayers [⟨0, 0, 5, 0x8100, 24⟩, ⟨0, 0, 6, 0x0800, 20⟩] [] =
      some [("vlan1", ⟨0, 0, 5, 0x8100, 24⟩), ("vlan", ⟨0, 0, 6, 0x0800, 20⟩)] := by
  have h := vlan_layers_spec [⟨0, 0, 5, 0x8100, 24⟩] ⟨0, 0, 6, 0x0800, 20⟩
    (by decide) (by decide)
  simpa using h

/-! ### The Unpacker and the DDP/RDMAP/MPA decoders (claim C5) -/

/-- Modelled from the spec: the Unpacker of §4.A (its source,
packet/unpack.py, is not under src/).  It holds a byte buffer and a cursor
`offset`; `read(n)` advances the cursor and fails when `n` exceeds the
remaining bytes; `seek`/`tell` move and report the cursor; `size()` (also
`len(unpack)`) is the number of remaining bytes. -/
structure Unpack where
  data : Bytes
  pos : Nat
deriving DecidableEq

/-- `unpack.tell()`. -/
def Unpack.tell (u : Unpack) : Nat := u.pos

/-- `unpack.seek(offset)` (absolute). -/
def Unpack.seek (u : Unpack) (off : Nat) : Unpack := { u with pos := off }

/-- `unpack.size()` / `len(unpack)`: remaining bytes. -/
def Unpack.remaining (u : Unpack) : Nat := u.data.length - u.pos

/-- `unpack.read(n)` and the fixed-width `unpack(n, fmt)` reads: fail when
fewer than `n` bytes remain. -/
def Unpack.readBytes (u : Unpack) (n : Nat) : Option (Bytes × Unpack) :=
  if u.pos + n ≤ u.data.length then
    some ((u.data.drop u.pos).take n, { u with pos := u.pos + n })
  else
    none

/-- Network-byte-order (big-endian) integer assembly. -/
def beNat (bs : Bytes) : Nat := bs.foldl (fun a b => a * 256 + b) 0

/-- The record-header fields consumed by the MPA decoder
(`record.length_orig`, `record.length_inc`). -/
structure RecordInfo where
  length_orig : Nat
  length_inc : Nat
deriving DecidableEq

/-- The DDP layer object (ddp.py). -/
structure DDP where
  tagged : Nat
  lastfl : Nat
  version : Nat
  stag : Option Nat
  queue : Option Nat
  msn : Option Nat
  toffset : Option Nat
  psize : Nat
  payload : Bytes
deriving DecidableEq

/-- `DDP.__init__(pktt)` (ddp.py lines 61-111).  Returns the unpack object,
the packet and the attached layer (None when the input was rejected); a
truncated read raises, embedded as None overall.  The payload dispatch to
RDMAP is driven by the caller and not re-entered here. -/
def ddpDecode (u : Unpack) (pkt : Pkt) : Option (Unpack × Pkt × Option DDP) :=
  let offset := u.tell
  match u.readBytes 6 with
  | none => none
  | some (hdr, u1) =>
    let b0 := hdr.headD 0
    let tagged := (b0 >>> 7) &&& 0x01
    let lastfl := (b0 >>> 6) &&& 0x01
    let reserved := (b0 >>> 2) &&& 0x0F
    let version := b0 &&& 0x03
    if reserved ≠ 0 ∨ version ≠ 1 then
      some (u1.seek offset, pkt, none)
    else
      let pkt := pkt.add_layer "ddp"
      if tagged = 1 then
        match u1.readBytes 8 with
        | none => none
        | some (obytes, u2) =>
          some ({ u2 with pos := u2.data.length }, pkt,
            some { tagged, lastfl, version, stag := some (beNat (hdr.drop 2)),
                   queue := none, msn := none, toffset := some (beNat obytes),
                   psize := u2.remaining, payload := u2.data.drop u2.pos })
      else
        match u1.readBytes 12 with
        | none => none
        | some (qbytes, u2) =>
          some ({ u2 with pos := u2.data.length }, pkt,
            some { tagged, lastfl, version, stag := none,
                   queue := some (beNat (qbytes.take 4)),
                   msn := some (beNat ((qbytes.drop 4).take 4)),
                   toffset := some (beNat (qbytes.drop 8)),
                   psize := u2.remaining, payload := u2.data.drop u2.pos })

/-- The RDMAP layer object (rdmap.py). -/
structure RDMAPhdr where
  version : Nat
  opcode : Nat
  istag : Option Nat
  sinkstag : Option Nat
  sinksto : Option Nat
  dma_len : Option Nat
  srcstag : Option Nat
  srcsto : Option Nat
  psize : Nat
deriving DecidableEq

/-- `RDMAP.__init__(pktt, pinfo)` (rdmap.py lines 88-140).  `pinfo` is the
pair [RDMAP control byte, Invalidate STag] read by the caller, `ddpTagged`
the tagged flag of the DDP layer underneath.  The `_decode_payload` dispatch
(Sends, Writes, Read Requests/Responses) drives the RDMAinfo functions
modelled above and is not re-entered here; it runs only after the layer has
been attached and never touches bytes before the entry offset. -/
def rdmapDecode (u : Unpack) (pkt : Pkt) (pinfo0 pinfo1 : Nat) (ddpTagged : Bool) :
    Option (Unpack × Pkt × Option RDMAPhdr) :=
  let offset := u.tell
  let version := (pinfo0 >>> 6) &&& 0x03
  let reserved := (pinfo0 >>> 4) &&& 0x03
  let opcode := pinfo0 &&& 0x0F
  if ¬(version = 0 ∨ version = 1) ∨ reserved ≠ 0 then
    some (u.seek offset, pkt, none)
  else
    let istag := if ¬ddpTagged then some pinfo1 else none
    if opcode = 0x1 then
      -- RDMA Read Request header: `unpack.unpack(28, "!IQIIQ")`
      match u.readBytes 28 with
      | none => none
      | some (bs, u1) =>
        some (u1, pkt.add_layer "rdmap",
          some { version, opcode, istag,
                 sinkstag := some (beNat (bs.take 4)),
                 sinksto := some (beNat ((bs.drop 4).take 8)),
                 dma_len := some (beNat ((bs.drop 12).take 4)),
                 srcstag := some (beNat ((bs.drop 16).take 4)),
                 srcsto := some (beNat (bs.drop 20)),
                 psize := u1.remaining })
    else
      some (u, pkt.add_layer "rdmap",
        some { version, opcode, istag, sinkstag := none, sinksto := none,
               dma_len := none, srcstag := none, srcsto := none,
               psize := u.remaining })

/-- The MPA layer object (mpa.py). -/
structure MPA where
  psize : Nat
  crc : Option Nat
  ftype : Option Nat
  marker : Option Nat
  use_crc : Option Nat
  rej : Option Nat
  revision : Option Nat
  payload : Bytes
deriving DecidableEq

/-- The 16-byte connection-setup key `"MPA ID Req Frame"`. -/
def mpaReqKey : Bytes :=
  [0x4d, 0x50, 0x41, 0x20, 0x49, 0x44, 0x20, 0x52, 0x65, 0x71, 0x20, 0x46, 0x72, 0x61, 0x6d, 0x65]

/-- The 16-byte connection-setup key `"MPA ID Rep Frame"`. -/
def mpaRepKey : Bytes :=
  [0x4d, 0x50, 0x41, 0x20, 0x49, 0x44, 0x20, 0x52, 0x65, 0x70, 0x20, 0x46, 0x72, 0x61, 0x6d, 0x65]

/-- `MPA._mpa_frame(pktt)` (mpa.py lines 128-138), entered with the cursor at
the start of the 16-byte key plus 16: read flags/revision/private-data size,
then the private data, and attach the layer. -/
def mpaFrame (u : Unpack) (pkt : Pkt) (ftype : Nat) : Option (Unpack × Pkt × Option MPA) :=
  match u.readBytes 4 with
  | none => none
  | some (bs, u1) =>
    let b0 := bs.headD 0
    let psize := beNat (bs.drop 2)
    match u1.readBytes psize with
    | none => none
    | some (priv, u2) =>
      some (u2, pkt.add_layer "mpa",
        some { psize, crc := none, ftype := some ftype,
               marker := some ((b0 >>> 7) &&& 0x01),
               use_crc := some ((b0 >>> 6) &&& 0x01),
               rej := some ((b0 >>> 5) &&& 0x01),
               revision := some (bs.getD 1 0),
               payload := priv })

/-- `MPA._mpa_setup(pktt, mpalen, offset)` (mpa.py lines 140-164): when the
two length bytes read as 0x4d50 ("MP"), seek back and test the 16-byte
req/rep keys; otherwise, or when neither key matches, seek back to the entry
offset and attach nothing. -/
def mpaSetup (u1 : Unpack) (pkt : Pkt) (mpalen offset : Nat) :
    Option (Unpack × Pkt × Option MPA) :=
  if mpalen = 0x4d50 then
    let u2 := u1.seek offset
    match u2.readBytes 16 with
    | none => none
    | some (key, u3) =>
      if key = mpaReqKey then mpaFrame u3 pkt 0
      else if key = mpaRepKey then mpaFrame u3 pkt 1
      else some (u3.seek offset, pkt, none)
  else
    some (u1.seek offset, pkt, none)

/-- `MPA.__init__(pktt)` (mpa.py lines 76-126).  The declared-length check
compares the 2-byte MPA length against the frame size left after the CRC and
padding (computed with Python int arithmetic, hence `Int`). -/
def mpaDecode (u : Unpack) (pkt : Pkt) (record : RecordInfo) :
    Option (Unpack × Pkt × Option MPA) :=
  let offset := u.tell
  if u.remaining < 8 then
    some (u, pkt, none)
  else
    match u.readBytes 2 with
    | none => none
    | some (lb, u1) =>
      let mpalen := beNat lb
      let pad := (4 - ((mpalen + 2) &&& 0x03)) &&& 0x03
      let size : Int := (record.length_orig : Int) - (u1.tell : Int) - 4 - (pad : Int)
      if (mpalen : Int) ≠ size then
        mpaSetup u1 pkt mpalen offset
      else
        -- MPA Full Operation Phase
        let pkt := pkt.add_layer "mpa"
        let delta : Int := (record.length_orig : Int) - (record.length_inc : Int)
        let sz : Int := (u1.remaining : Int) - (if delta < 4 then 4 - delta else 0)
        let n : Nat := (min (mpalen : Int) sz).toNat
        match (if sz > 0 then u1.readBytes n else some ([], u1)) with
        | none => none
        | some (dataBytes, u2) =>
          if delta = 0 ∧ u2.remaining ≥ 4 then
            match u2.readBytes 4 with
            | none => none
            | some (cb, u3) =>
              some (u3, pkt,
                some { psize := mpalen, crc := some (beNat cb), ftype := none,
                       marker := none, use_crc := none, rej := none,
                       revision := none, payload := dataBytes })
          else
            some (u2, pkt,
              some { psize := mpalen, crc := none, ftype := none,
                     marker := none, use_crc := none, rej := none,
                     revision := none, payload := dataBytes })

theorem headD_take (l : Bytes) (n : Nat) (d : Nat) (hn : n ≠ 0) :
    (l.take n).headD d = l.headD d := by
  cases l with
  | nil => simp
  | cons a t =>
    cases n with
    | zero => exact absurd rfl hn
    | succ m => simp

/-- Claim C5: each of the DDP, RDMAP and MPA decoders, on an input it rejects
(DDP: reserved bits nonzero or version ≠ 1; RDMAP: version not in {0,1} or
reserved bits nonzero; MPA: declared length mismatching the payload size and
the input not beginning with either 16-byte connection-setup key), returns
with the Unpacker cursor back at its entry offset and without adding any
layer to the packet. -/
theorem decoder_reject_restores_offset :
    (∀ (u : Unpack) (pkt : Pkt), 6 ≤ u.remaining →
      (((u.data.drop u.pos).headD 0 >>> 2) &&& 0x0F ≠ 0 ∨
        (u.data.drop u.pos).headD 0 &&& 0x03 ≠ 1) →
      ddpDecode u pkt = some (u, pkt, none)) ∧
    (∀ (u : Unpack) (pkt : Pkt) (p0 p1 : Nat) (t : Bool),
      (¬((p0 >>> 6) &&& 0x03 = 0 ∨ (p0 >>> 6) &&& 0x03 = 1) ∨ (p0 >>> 4) &&& 0x03 ≠ 0) →
      rdmapDecode u pkt p0 p1 t = some (u, pkt, none)) ∧
    (∀ (u : Unpack) (pkt : Pkt) (record : RecordInfo), 8 ≤ u.remaining →
      ((beNat ((u.data.drop u.pos).take 2) : Int) ≠
        (record.length_orig : Int) - ((u.pos + 2 : Nat) : Int) - 4 -
          (((4 - ((beNat ((u.data.drop u.pos).take 2) + 2) &&& 0x03)) &&& 0x03 : Nat) : Int)) →
      (beNat ((u.data.drop u.pos).take 2) = 0x4d50 → 16 ≤ u.remaining ∧
        (u.data.drop u.pos).take 16 ≠ mpaReqKey ∧
        (u.data.drop u.pos).take 16 ≠ mpaRepKey) →
      mpaDecode u pkt record = some (u, pkt, none)) := by
  refine ⟨?_, ?_, ?_⟩
  · intro u pkt hrem hrej
    have hlen : u.pos + 6 ≤ u.data.length := by
      simp only [Unpack.remaining] at hrem; omega
    have hread : u.readBytes 6 =
        some ((u.data.drop u.pos).take 6, { u with pos := u.pos + 6 }) := by
      simp [Unpack.readBytes, hlen]
    simp only [ddpDecode, Unpack.tell, hread]
    rw [headD_take _ 6 0 (by decide)]
    rw [if_pos hrej]
    rfl
  · intro u pkt p0 p1 t hrej
    simp only [rdmapDecode, Unpack.tell]
    rw [if_pos hrej]
    rfl
  · intro u pkt record hrem hmism hkey
    have hlen2 : u.pos + 2 ≤ u.data.length := by
      simp only [Unpack.remaining] at hrem; omega
    have hread2 : u.readBytes 2 =
        some ((u.data.drop u.pos).take 2, { u with pos := u.pos + 2 }) := by
      simp [Unpack.readBytes, hlen2]
    have hnot8 : ¬u.remaining < 8 := by omega
    simp only [mpaDecode, Unpack.tell, hread2, if_neg hnot8]
    rw [if_pos hmism]
    by_cases hm : beNat ((u.data.drop u.pos).take 2) = 0x4d50
    · obtain ⟨hrem16, hneq, hnep⟩ := hkey hm
      have hlen16 : u.pos + 16 ≤ u.data.length := by
        simp only [Unpack.remaining] at hrem16; omega
      have hread16 : (Unpack.seek { u with pos := u.pos + 2 } u.pos).readBytes 16 =
          some ((u.data.drop u.pos).take 16, { u with pos := u.pos + 16 }) := by
        simp [Unpack.seek, Unpack.readBytes, hlen16]
      simp only [mpaSetup, if_pos hm, hread16]
      rw [if_neg hneq, if_neg hnep]
      rfl
    · simp only [mpaSetup, if_neg hm]
      rfl

/-- Witness for C5: a DDP header byte with nonzero reserved bits, an RDMAP
control byte with version 3, and an MPA frame whose declared length 5 cannot
match the remaining payload — each decoder hands back its input untouched. -/
theorem decoder_reject_restores_offset_witness :
    ddpDecode ⟨[0xFF, 0, 0, 0, 0, 0, 1, 2], 0⟩ (Pkt.new 1) =
      some (⟨[0xFF, 0, 0, 0, 0, 0, 1, 2], 0⟩, Pkt.new 1, none) ∧
    rdmapDecode ⟨[1, 2, 3], 0⟩ (Pkt.new 2) 0xF0 7 false =
      some (⟨[1, 2, 3], 0⟩, Pkt.new 2, none) ∧
    mpaDecode ⟨[0, 5, 1, 2, 3, 4, 5, 6, 7, 8], 0⟩ (Pkt.new 3) ⟨100, 100⟩ =
      some (⟨[0, 5, 1, 2, 3, 4, 5, 6, 7, 8], 0⟩, Pkt.new 3, none) := by
  refine ⟨?_, ?_, ?_⟩
  · exact decoder_reject_restores_offset.1 ⟨[0xFF, 0, 0, 0, 0, 0, 1, 2], 0⟩ (Pkt.new 1)
      (by decide) (by decide)
  · exact decoder_reject_restores_offset.2.1 ⟨[1, 2, 3], 0⟩ (Pkt.new 2) 0xF0 7 false
      (by decide)
  · exact decoder_reject_restores_offset.2.2 ⟨[0, 5, 1, 2, 3, 4, 5, 6, 7, 8], 0⟩ (Pkt.new 3)
      ⟨100, 100⟩ (by decide) (by decide) (by decide)

/-! ### Trace positioning: `Pktt.match` and `Pktt.rewind` (claim C6)

The claim concerns only the trace position, so a packet is embedded by the
two things the search loop reads from it: its `record.index` and the value
of the compiled predicate on it (`eval(pdata)`, where an evaluation error
counts as no match).  A single-file trace is a list of packets whose
`record.index` equals their position; `next()` is an index increment.  The
state carries the normal-mode cursor `index`, the buffered-mode list
(`pktlist`, set via `set_pktlist`) and its cursor `pindex`. -/

structure MPkt where
  recindex : Nat
  matched : Bool
deriving DecidableEq

structure PkttState where
  pkts : List MPkt
  index : Nat
  pktlist : Option (List MPkt)
  pindex : Nat
deriving DecidableEq

/-- `Pktt.get_index()` (pktt.py lines 850-855). -/
def PkttState.get_index (st : PkttState) : Nat :=
  match st.pktlist with
  | none => st.index
  | some _ => st.pindex

/-- `maxindex and pkt.record.index >= maxindex` (pktt.py line 1142): a None
or zero maxindex is falsy. -/
def maxHit (maxindex : Option Nat) (recindex : Nat) : Bool :=
  match maxindex with
  | none => false
  | some m => m ≠ 0 && recindex ≥ m

/-- The `for pkt in pkt_list` search loop of `match` in normal mode:
`next()` yields the head of the not-yet-consumed tail of the trace and
advances `index`; the loop ends on StopIteration (end of trace), on the
maxindex limit, or on the first packet satisfying the predicate.  Returns the
matched packet (if any) and the final `index`. -/
def matchLoopNormal (maxindex : Option Nat) : List MPkt → Nat → Option MPkt × Nat
  | [], i => (none, i)
  | pkt :: rest, i =>
    if maxHit maxindex pkt.recindex then (none, i + 1)
    else if pkt.matched then (some pkt, i + 1)
    else matchLoopNormal maxindex rest (i + 1)

/-- The search loop of `match` in buffered mode (pktt.py lines 1141-1169):
the Python `for` iterates the whole `pktlist` from its head; packets whose
`record.index` is below `pindex` are skipped, any other advances `pindex`
past itself before the predicate runs. -/
def matchLoopBuffered (maxindex : Option Nat) :
    List MPkt → Nat → Option MPkt × Nat
  | [], pindex => (none, pindex)
  | pkt :: rest, pindex =>
    if maxHit maxindex pkt.recindex then (none, pindex)
    else if pkt.recindex < pindex then matchLoopBuffered maxindex rest pindex
    else if pkt.matched then (some pkt, pkt.recindex + 1)
    else matchLoopBuffered maxindex rest (pkt.recindex + 1)

/-- The replay loop of `rewind` (pktt.py lines 715-721): `while self.index <
index: next(self)`, stopping early when the trace runs out of packets. -/
def replayLoop (target : Nat) : List MPkt → Nat → Nat
  | l, i =>
    if i < target then
      match l with
      | [] => i
      | _ :: rest => replayLoop target rest (i + 1)
    else i

/-- `Pktt.rewind(index)` (pktt.py lines 675-725) for a single trace file: in
buffered mode only `pindex` is reset; otherwise, when the requested index
precedes the current one, the position and reassembly state are cleared and
the trace is replayed from the first packet. -/
def PkttState.rewind (st : PkttState) (index : Nat) : PkttState :=
  match st.pktlist with
  | some _ => { st with pindex := index }
  | none =>
    if index < st.index then
      { st with index := replayLoop index st.pkts 0 }
    else
      st

/-- `Pktt.match(expr, maxindex, rewind=True)` (pktt.py lines 1044-1177) with
the default `rewind=True` and `reply=False`: search from the saved position;
on no-match, rewind to it. -/
def PkttState.matchPkt (st : PkttState) (maxindex : Option Nat) :
    Option MPkt × PkttState :=
  match st.pktlist with
  | none =>
    let save_index := st.index
    match matchLoopNormal maxindex (st.pkts.drop st.index) st.index with
    | (some pkt, i) => (some pkt, { st with index := i })
    | (none, i) => (none, PkttState.rewind { st with index := i } save_index)
  | some plist =>
    let save_index := st.pindex
    match matchLoopBuffered maxindex plist st.pindex with
    | (some pkt, p) => (some pkt, { st with pindex := p })
    | (none, p) => (none, PkttState.rewind { st with pindex := p } save_index)

/-- The search loop never moves the cursor backwards. -/
theorem matchLoopNormal_le (maxindex : Option Nat) :
    ∀ (l : List MPkt) (i : Nat), i ≤ (matchLoopNormal maxindex l i).2 := by
  intro l
  induction l with
  | nil => intro i; exact Nat.le_refl i
  | cons pkt rest ih =>
    intro i
    by_cases hmax : maxHit maxindex pkt.recindex
    · simp only [matchLoopNormal, if_pos hmax]; omega
    · by_cases hm : pkt.matched
      · simp only [matchLoopNormal, if_neg hmax, if_pos hm]; omega
      · simp only [matchLoopNormal, if_neg hmax, if_neg hm]
        have := ih (i + 1)
        omega

/-- Replaying from the start of the trace reaches exactly the requested
index, provided it does not exceed the number of packets in the trace. -/
theorem replayLoop_eq (target : Nat) :
    ∀ (l : List MPkt) (i : Nat), target ≤ i + l.length → i ≤ target →
    replayLoop target l i = target := by
  intro l
  induction l with
  | nil =>
    intro i h hi
    have : i = target := by simp at h; omega
    rw [replayLoop, if_neg (by omega : ¬i < target)]
    exact this
  | cons pkt rest ih =>
    intro i h hi
    by_cases hlt : i < target
    · rw [replayLoop, if_pos hlt]
      exact ih (i + 1) (by simp at h ⊢; omega) (by omega)
    · rw [replayLoop, if_neg hlt]
      omega

/-- Claim C6: whenever `match(E, rewind=True)` returns None (no packet
matched before the end of the trace or the `maxindex` limit), `get_index()`
reports the same value after the call as before it — in normal mode via the
rewind-and-replay of the file-backed index, in buffered mode via the direct
reset of the `pktlist` cursor. -/
theorem match_rewind_preserves_index (st : PkttState) (maxindex : Option Nat)
    (hinv : st.pktlist = none → st.index ≤ st.pkts.length)
    (hnone : (st.matchPkt maxindex).1 = none) :
    (st.matchPkt maxindex).2.get_index = st.get_index := by
  obtain ⟨pkts, index, pktlist, pindex⟩ := st
  cases pktlist with
  | none =>
    have hle : index ≤ pkts.length := hinv rfl
    cases hres : matchLoopNormal maxindex (pkts.drop index) index with
    | mk r i =>
      cases r with
      | some pkt =>
        exact absurd (by simp only [PkttState.matchPkt, hres] at hnone ⊢; exact hnone)
          (by simp)
      | none =>
        have hge : index ≤ i := by
          have := matchLoopNormal_le maxindex (pkts.drop index) index
          rwa [hres] at this
        simp only [PkttState.matchPkt, hres, PkttState.get_index, PkttState.rewind]
        by_cases hlt : index < i
        · rw [if_pos hlt]
          exact replayLoop_eq index pkts 0 (by simpa using hle) (by omega)
        · rw [if_neg hlt]
          exact (by omega : i = index)
  | some plist =>
    cases hres : matchLoopBuffered maxindex plist pindex with
    | mk r p =>
      cases r with
      | some pkt =>
        exact absurd (by simp only [PkttState.matchPkt, hres] at hnone ⊢; exact hnone)
          (by simp)
      | none =>
        simp only [PkttState.matchPkt, hres, PkttState.get_index, PkttState.rewind]

/-- Witness for C6: a three-packet trace with no matching packet, searched
from index 1; and a buffered two-packet list, searched from pindex 0 —
`get_index()` is unchanged by the failed match in both modes. -/
theorem match_rewind_preserves_index_witness :
    ((PkttState.mk [⟨0, false⟩, ⟨1, false⟩, ⟨2, false⟩] 1 none 0).matchPkt none).2.get_index = 1 ∧
    ((PkttState.mk [] 0 (some [⟨4, false⟩, ⟨7, false⟩]) 5).matchPkt none).2.get_index = 5 := by
  constructor
  · have h := match_rewind_preserves_index
      (PkttState.mk [⟨0, false⟩, ⟨1, false⟩, ⟨2, false⟩] 1 none 0) none
      (fun _ => by decide) (by decide)
    rw [h]
    rfl
  · have h := match_rewind_preserves_index
      (PkttState.mk [] 0 (some [⟨4, false⟩, ⟨7, false⟩]) 5) none
      (fun hcontra => by cases hcontra) (by decide)
    rw [h]
    rfl

/-! ### The matcher's `unparse` (pktt.py lines 187-254, claim C7)

The expression trees `_convert_match` rebuilds come from `ast.parse` on the
user's predicate.  The AST fragment handled by `unparse` is embedded below:
names, attribute chains, constants (embedded as the numeric literals of the
matching language), tuples, lists, calls, comparisons, boolean operations
(with the n-ary value list `ast.BoolOp` carries), binary and unary
operations.  CPython's parser hands out singleton instances for operator
nodes, so the source's `tree.op == tree.left.op` identity test is operator
equality here. -/

inductive BOp where
  | add | sub | mult | div | floordiv | mod | pow
  | lshift | rshift | bitor | bitxor | bitand | matmult
deriving DecidableEq

inductive CmpOp where
  | eq | ne | lt | le | gt | ge | isOp | isNot | inOp | notIn
deriving DecidableEq

inductive BoolK where
  | and | or
deriving DecidableEq

inductive UOp where
  | not | usub | uadd | invert
deriving DecidableEq

/-- `binop_d` (pktt.py lines 101-115). -/
def bopStr : BOp → String
  | .add => " + " | .sub => " - " | .mult => " * " | .div => " / "
  | .floordiv => " // " | .mod => " % " | .pow => " ** "
  | .lshift => " << " | .rshift => " >> "
  | .bitor => " | " | .bitxor => " ^ " | .bitand => " & " | .matmult => " @ "

/-- Every entry of `oplogic_d` is the operator surrounded by one space. -/
def spacePad (s : String) : String := " " ++ s ++ " "

/-- `oplogic_d` (pktt.py lines 88-99). -/
def cmpStr : CmpOp → String
  | .eq => spacePad "=="
  | .ne => spacePad "!="
  | .lt => spacePad "<"
  | .le => spacePad "<="
  | .gt => spacePad ">"
  | .ge => spacePad ">="
  | .isOp => spacePad "is"
  | .isNot => spacePad "is not"
  | .inOp => spacePad "in"
  | .notIn => spacePad "not in"

/-- `bool_d` (pktt.py lines 117-120). -/
def boolStr : BoolK → String
  | .and => " and " | .or => " or "

/-- `unary_d` (pktt.py lines 122-127). -/
def uopStr : UOp → String
  | .not => "not " | .usub => "-" | .uadd => "+" | .invert => "~"

/-- `precedence_d` (pktt.py lines 129-150) for binary operators. -/
def bopPrec : BOp → Nat
  | .pow => 80
  | .matmult | .mult | .div | .floordiv | .mod => 60
  | .add | .sub => 50
  | .lshift | .rshift => 40
  | .bitand => 34 | .bitxor => 32 | .bitor => 30

/-- `precedence_d` for unary operators. -/
def uopPrec : UOp → Nat
  | .usub | .uadd | .invert => 70
  | .not => 14

/-- `precedence_d` for the boolean operators. -/
def boolPrec : BoolK → Nat
  | .and => 12 | .or => 10

inductive Expr where
  | name (s : String)
  | attr (e : Expr) (a : String)
  | const (n : Nat)
  | tup (es : List Expr)
  | listE (es : List Expr)
  | call (f : Expr) (args : List Expr)
  | cmp (l : Expr) (pairs : List (CmpOp × Expr))
  | boolop (k : BoolK) (vs : List Expr)
  | binop (l : Expr) (op : BOp) (r : Expr)
  | unop (op : UOp) (e : Expr)

/-- `sep.join(items)`. -/
def joinWith (sep : String) : List String → String
  | [] => ""
  | [x] => x
  | x :: y :: rest => x ++ sep ++ joinWith sep (y :: rest)

/-- `", ".join(items)`. -/
def joinComma (l : List String) : String := joinWith ", " l

/-- The LHS parenthesization of the BinOp branch (pktt.py lines 237-244):
parenthesize a binary left operand of strictly lower precedence, or when both
this operator and the left operand's are `**` (whose right-to-left
associativity the comment calls out); nothing else. -/
def leftParen (op : BOp) (l : Expr) (lhs : String) : String :=
  match l with
  | .binop _ lop _ =>
    if (op = .pow ∧ lop = .pow) ∨ bopPrec lop < bopPrec op then "(" ++ lhs ++ ")" else lhs
  | _ => lhs

/-- The RHS parenthesization of the BinOp branch (pktt.py lines 245-247):
parenthesize a binary right operand of strictly lower precedence. -/
def rightParen (op : BOp) (r : Expr) (rhs : String) : String :=
  match r with
  | .binop _ rop _ =>
    if bopPrec rop < bopPrec op then "(" ++ rhs ++ ")" else rhs
  | _ => rhs

/-- The operand parenthesization of the UnaryOp branch (pktt.py lines
249-254): parenthesize a binary or boolean operand of strictly lower
precedence. -/
def unaryParen (op : UOp) (e : Expr) (s : String) : String :=
  match e with
  | .binop _ eop _ =>
    if bopPrec eop < uopPrec op then "(" ++ s ++ ")" else s
  | .boolop k _ =>
    if boolPrec k < uopPrec op then "(" ++ s ++ ")" else s
  | _ => s

/-- The item parenthesization of the BoolOp branch (pktt.py lines 229-231):
a nested logical operation gets parentheses. -/
def boolItemParen (e : Expr) (s : String) : String :=
  match e with
  | .boolop _ _ => "(" ++ s ++ ")"
  | _ => s

mutual

/-- `unparse(tree)` (pktt.py lines 187-254). -/
def unparse : Expr → String
  | .name s => s
  | .attr e a => unparse e ++ "." ++ a
  | .const n => toString n
  | .tup es =>
    let tlist := unparseList es
    let tlist := if tlist.length ≤ 1 then tlist ++ [""] else tlist
    "(" ++ joinComma tlist ++ ")"
  | .listE es => "[" ++ joinComma (unparseList es) ++ "]"
  | .call f args => unparse f ++ "(" ++ joinComma (unparseList args) ++ ")"
  | .cmp l pairs => unparse l ++ unparseCmps pairs
  | .boolop k vs => joinWith (boolStr k) (unparseBoolItems vs)
  | .binop l op r => leftParen op l (unparse l) ++ bopStr op ++ rightParen op r (unparse r)
  | .unop op e => uopStr op ++ unaryParen op e (unparse e)

/-- The list comprehensions `[unparse(x) for x in ...]`. -/
def unparseList : List Expr → List String
  | [] => []
  | e :: rest => unparse e :: unparseList rest

/-- The `"".join([x+y for x,y in zip(ops, comparators)])` of the Compare
branch: comparison operands are never parenthesized. -/
def unparseCmps : List (CmpOp × Expr) → String
  | [] => ""
  | (op, e) :: rest => cmpStr op ++ unparse e ++ unparseCmps rest

/-- The BoolOp branch's item list: a nested boolean operation gets
parentheses, nothing else does. -/
def unparseBoolItems : List Expr → List String
  | [] => []
  | e :: rest => boolItemParen e (unparse e) :: unparseBoolItems rest

end

/-! Spec-side description of the parenthesization, for the amended claim. -/

/-- Add parentheses when the flag holds. -/
def parenIf (b : Bool) (s : String) : String :=
  if b then "(" ++ s ++ ")" else s

/-- Amended claim, left operand: needs parentheses iff it is a binary
operation whose operator binds less tightly than its parent's, or both are
the right-associative power operator. -/
def specParenLeft (l : Expr) (op : BOp) : Bool :=
  match l with
  | .binop _ lop _ =>
    decide (bopPrec lop < bopPrec op) || (decide (op = BOp.pow) && decide (lop = BOp.pow))
  | _ => false

/-- Amended claim, right operand: needs parentheses iff it is a binary
operation whose operator binds less tightly than its parent's. -/
def specParenRight (r : Expr) (op : BOp) : Bool :=
  match r with
  | .binop _ rop _ => decide (bopPrec rop < bopPrec op)
  | _ => false

/-- Amended claim, unary operand: needs parentheses iff it is a binary or
boolean operation whose operator binds less tightly than the unary one. -/
def specParenUnary (e : Expr) (op : UOp) : Bool :=
  match e with
  | .binop _ eop _ => decide (bopPrec eop < uopPrec op)
  | .boolop k _ => decide (boolPrec k < uopPrec op)
  | _ => false

/-- Amended claim, boolean operand: needs parentheses iff it is itself a
boolean operation. -/
def specParenBool (e : Expr) : Bool :=
  match e with
  | .boolop _ _ => true
  | _ => false

/-- Plain concatenation of a list of strings. -/
def concatStrs : List String → String
  | [] => ""
  | s :: rest => s ++ concatStrs rest

theorem leftParen_eq (op : BOp) (l : Expr) (s : String) :
    leftParen op l s = parenIf (specParenLeft l op) s := by
  cases l <;> simp only [leftParen, specParenLeft, parenIf, if_neg Bool.false_ne_true]
  case binop a lop b =>
    by_cases h1 : bopPrec lop < bopPrec op
    · simp [h1]
    · by_cases h2 : op = BOp.pow ∧ lop = BOp.pow
      · simp [h1, h2.1, h2.2]
      · have hb : (decide (op = BOp.pow) && decide (lop = BOp.pow)) = false := by
          by_cases hp : op = BOp.pow
          · by_cases hq : lop = BOp.pow
            · exact absurd ⟨hp, hq⟩ h2
            · simp [hq]
          · simp [hp]
        simp [h1, h2, hb]

theorem rightParen_eq (op : BOp) (r : Expr) (s : String) :
    rightParen op r s = parenIf (specParenRight r op) s := by
  cases r <;> simp only [rightParen, specParenRight, parenIf, if_neg Bool.false_ne_true]
  case binop a rop b =>
    by_cases h1 : bopPrec rop < bopPrec op
    · simp [h1]
    · simp [h1]

theorem unaryParen_eq (op : UOp) (e : Expr) (s : String) :
    unaryParen op e s = parenIf (specParenUnary e op) s := by
  cases e <;> simp only [unaryParen, specParenUnary, parenIf, if_neg Bool.false_ne_true]
  case binop a eop b =>
    by_cases h1 : bopPrec eop < uopPrec op
    · simp [h1]
    · simp [h1]
  case boolop k vs =>
    by_cases h1 : boolPrec k < uopPrec op
    · simp [h1]
    · simp [h1]

theorem boolItemParen_eq (e : Expr) (s : String) :
    boolItemParen e s = parenIf (specParenBool e) s := by
  cases e <;> simp [boolItemParen, specParenBool, parenIf]

theorem unparseBoolItems_eq (vs : List Expr) :
    unparseBoolItems vs = vs.map (fun v => parenIf (specParenBool v) (unparse v)) := by
  induction vs with
  | nil => rfl
  | cons v rest ih => simp [unparseBoolItems, boolItemParen_eq, ih]

theorem unparseCmps_eq (pairs : List (CmpOp × Expr)) :
    unparseCmps pairs = concatStrs (pairs.map (fun p => cmpStr p.1 ++ unparse p.2)) := by
  induction pairs with
  | nil => rfl
  | cons p rest ih => simp [unparseCmps, concatStrs, ih, String.append_assoc]

theorem unparseList_eq (es : List Expr) : unparseList es = es.map unparse := by
  induction es with
  | nil => rfl
  | cons e rest ih => simp [unparseList, ih]

/-! ### Re-parsing the unparsed string

`_convert_match` re-parses rewritten sub-expressions with the host
language's `ast.parse`.  To state what re-parsing yields, the expression
grammar of the host language is embedded below for the fragment `unparse`
emits: the precedence ladder or < and < not < comparison < `|` < `^` < `&`
< shifts < `+ -` < `* / // % @` < unary < `**` (right-associative), with
postfix attribute access and calls, exactly as in the Python language
reference used by `ast.parse`. -/

inductive Tok where
  | ident (s : String)
  | num (n : Nat)
  | kwAnd | kwOr | kwNot | kwIs | kwIn
  | sym (o : BOp)
  | cmpSym (c : CmpOp)
  | tilde
  | lpar | rpar | lbrack | rbrack | comma | dot
deriving DecidableEq

def isIdentStart (c : Char) : Bool := c.isAlpha || c = '_'

def isIdentChar (c : Char) : Bool := c.isAlpha || c.isDigit || c = '_'

/-- Keywords of the fragment; everything else is a name. -/
def keywordTok (s : String) : Tok :=
  if s = "and" then .kwAnd
  else if s = "or" then .kwOr
  else if s = "not" then .kwNot
  else if s = "is" then .kwIs
  else if s = "in" then .kwIn
  else .ident s

def digitsToNat (ds : List Char) : Nat :=
  ds.foldl (fun a c => a * 10 + (c.toNat - 48)) 0

/-- Tokenizer for the fragment (fuel-indexed; `fuel = input length`
suffices since every step consumes at least one character). -/
def tokenize : Nat → List Char → Option (List Tok)
  | _, [] => some []
  | 0, _ :: _ => none
  | fuel + 1, c :: cs =>
    if c = ' ' then tokenize fuel cs
    else if isIdentStart c then
      let word := String.mk (c :: cs.takeWhile isIdentChar)
      (tokenize fuel (cs.dropWhile isIdentChar)).map (fun ts => keywordTok word :: ts)
    else if c.isDigit then
      let n := digitsToNat (c :: cs.takeWhile Char.isDigit)
      (tokenize fuel (cs.dropWhile Char.isDigit)).map (fun ts => Tok.num n :: ts)
    else if c = '*' then
      match cs with
      | '*' :: cs' => (tokenize fuel cs').map (fun ts => Tok.sym .pow :: ts)
      | _ => (tokenize fuel cs).map (fun ts => Tok.sym .mult :: ts)
    else if c = '/' then
      match cs with
      | '/' :: cs' => (tokenize fuel cs').map (fun ts => Tok.sym .floordiv :: ts)
      | _ => (tokenize fuel cs).map (fun ts => Tok.sym .div :: ts)
    else if c = '<' then
      match cs with
      | '<' :: cs' => (tokenize fuel cs').map (fun ts => Tok.sym .lshift :: ts)
      | '=' :: cs' => (tokenize fuel cs').map (fun ts => Tok.cmpSym .le :: ts)
      | _ => (tokenize fuel cs).map (fun ts => Tok.cmpSym .lt :: ts)
    else if c = '>' then
      match cs with
      | '>' :: cs' => (tokenize fuel cs').map (fun ts => Tok.sym .rshift :: ts)
      | '=' :: cs' => (tokenize fuel cs').map (fun ts => Tok.cmpSym .ge :: ts)
      | _ => (tokenize fuel cs).map (fun ts => Tok.cmpSym .gt :: ts)
    else if c = '=' then
      match cs with
      | '=' :: cs' => (tokenize fuel cs').map (fun ts => Tok.cmpSym .eq :: ts)
      | _ => none
    else if c = '!' then
      match cs with
      | '=' :: cs' => (tokenize fuel cs').map (fun ts => Tok.cmpSym .ne :: ts)
      | _ => none
    else
      let tok : Option Tok :=
        if c = '+' then some (Tok.sym .add)
        else if c = '-' then some (Tok.sym .sub)
        else if c = '%' then some (Tok.sym .mod)
        else if c = '|' then some (Tok.sym .bitor)
        else if c = '^' then some (Tok.sym .bitxor)
        else if c = '&' then some (Tok.sym .bitand)
        else if c = '@' then some (Tok.sym .matmult)
        else if c = '~' then some Tok.tilde
        else if c = '(' then some Tok.lpar
        else if c = ')' then some Tok.rpar
        else if c = '[' then some Tok.lbrack
        else if c = ']' then some Tok.rbrack
        else if c = ',' then some Tok.comma
        else if c = '.' then some Tok.dot
        else none
      match tok with
      | some t => (tokenize fuel cs).map (fun ts => t :: ts)
      | none => none

mutual

/-- `or_expr`: chain of `and_expr` joined by `or` (n-ary BoolOp node, as
`ast.parse` builds it). -/
def pOr : Nat → List Tok → Option (Expr × List Tok)
  | 0, _ => none
  | fuel + 1, ts =>
    match pAnd fuel ts with
    | none => none
    | some (e, ts) => pOrRest fuel e [] ts

def pOrRest : Nat → Expr → List Expr → List Tok → Option (Expr × List Tok)
  | 0, _, _, _ => none
  | fuel + 1, first, acc, ts =>
    match ts with
    | .kwOr :: ts' =>
      match pAnd fuel ts' with
      | none => none
      | some (e, ts'') => pOrRest fuel first (acc ++ [e]) ts''
    | _ => some (if acc.isEmpty then first else .boolop .or (first :: acc), ts)

/-- `and_expr`: chain of `not_expr` joined by `and`. -/
def pAnd : Nat → List Tok → Option (Expr × List Tok)
  | 0, _ => none
  | fuel + 1, ts =>
    match pNot fuel ts with
    | none => none
    | some (e, ts) => pAndRest fuel e [] ts

def pAndRest : Nat → Expr → List Expr → List Tok → Option (Expr × List Tok)
  | 0, _, _, _ => none
  | fuel + 1, first, acc, ts =>
    match ts with
    | .kwAnd :: ts' =>
      match pNot fuel ts' with
      | none => none
      | some (e, ts'') => pAndRest fuel first (acc ++ [e]) ts''
    | _ => some (if acc.isEmpty then first else .boolop .and (first :: acc), ts)

/-- `not_expr`. -/
def pNot : Nat → List Tok → Option (Expr × List Tok)
  | 0, _ => none
  | fuel + 1, ts =>
    match ts with
    | .kwNot :: ts' =>
      match pNot fuel ts' with
      | none => none
      | some (e, ts'') => some (.unop .not e, ts'')
    | _ => pCmp fuel ts

/-- `comparison`: a `|`-expression followed by zero or more comparator
pairs, collected into a single Compare node. -/
def pCmp : Nat → List Tok → Option (Expr × List Tok)
  | 0, _ => none
  | fuel + 1, ts =>
    match pBitOr fuel ts with
    | none => none
    | some (l, ts) => pCmpRest fuel l [] ts

def pCmpRest : Nat → Expr → List (CmpOp × Expr) → List Tok → Option (Expr × List Tok)
  | 0, _, _, _ => none
  | fuel + 1, l, pairs, ts =>
    let step : Option (CmpOp × List Tok) :=
      match ts with
      | .cmpSym c :: ts' => some (c, ts')
      | .kwIs :: .kwNot :: ts' => some (.isNot, ts')
      | .kwIs :: ts' => some (.isOp, ts')
      | .kwIn :: ts' => some (.inOp, ts')
      | .kwNot :: .kwIn :: ts' => some (.notIn, ts')
      | _ => none
    match step with
    | some (c, ts') =>
      match pBitOr fuel ts' with
      | none => none
      | some (e, ts'') => pCmpRest fuel l (pairs ++ [(c, e)]) ts''
    | none => some (if pairs.isEmpty then l else .cmp l pairs, ts)

def pBitOr : Nat → List Tok → Option (Expr × List Tok)
  | 0, _ => none
  | fuel + 1, ts =>
    match pBitXor fuel ts with
    | none => none
    | some (l, ts) => pBitOrRest fuel l ts

def pBitOrRest : Nat → Expr → List Tok → Option (Expr × List Tok)
  | 0, _, _ => none
  | fuel + 1, l, ts =>
    match ts with
    | .sym .bitor :: ts' =>
      match pBitXor fuel ts' with
      | none => none
      | some (r, ts'') => pBitOrRest fuel (.binop l .bitor r) ts''
    | _ => some (l, ts)

def pBitXor : Nat → List Tok → Option (Expr × List Tok)
  | 0, _ => none
  | fuel + 1, ts =>
    match pBitAnd fuel ts with
    | none => none
    | some (l, ts) => pBitXorRest fuel l ts

def pBitXorRest : Nat → Expr → List Tok → Option (Expr × List Tok)
  | 0, _, _ => none
  | fuel + 1, l, ts =>
    match ts with
    | .sym .bitxor :: ts' =>
      match pBitAnd fuel ts' with
      | none => none
      | some (r, ts'') => pBitXorRest fuel (.binop l .bitxor r) ts''
    | _ => some (l, ts)

def pBitAnd : Nat → List Tok → Option (Expr × List Tok)
  | 0, _ => none
  | fuel + 1, ts =>
    match pShift fuel ts with
    | none => none
    | some (l, ts) => pBitAndRest fuel l ts

def pBitAndRest : Nat → Expr → List Tok → Option (Expr × List Tok)
  | 0, _, _ => none
  | fuel + 1, l, ts =>
    match ts with
    | .sym .bitand :: ts' =>
      match pShift fuel ts' with
      | none => none
      | some (r, ts'') => pBitAndRest fuel (.binop l .bitand r) ts''
    | _ => some (l, ts)

def pShift : Nat → List Tok → Option (Expr × List Tok)
  | 0, _ => none
  | fuel + 1, ts =>
    match pArith fuel ts with
    | none => none
    | some (l, ts) => pShiftRest fuel l ts

def pShiftRest : Nat → Expr → List Tok → Option (Expr × List Tok)
  | 0, _, _ => none
  | fuel + 1, l, ts =>
    match ts with
    | .sym .lshift :: ts' =>
      match pArith fuel ts' with
      | none => none
      | some (r, ts'') => pShiftRest fuel (.binop l .lshift r) ts''
    | .sym .rshift :: ts' =>
      match pArith fuel ts' with
      | none => none
      | some (r, ts'') => pShiftRest fuel (.binop l .rshift r) ts''
    | _ => some (l, ts)

def pArith : Nat → List Tok → Option (Expr × List Tok)
  | 0, _ => none
  | fuel + 1, ts =>
    match pTerm fuel ts with
    | none => none
    | some (l, ts) => pArithRest fuel l ts

def pArithRest : Nat → Expr → List Tok → Option (Expr × List Tok)
  | 0, _, _ => none
  | fuel + 1, l, ts =>
    match ts with
    | .sym .add :: ts' =>
      match pTerm fuel ts' with
      | none => none
      | some (r, ts'') => pArithRest fuel (.binop l .add r) ts''
    | .sym .sub :: ts' =>
      match pTerm fuel ts' with
      | none => none
      | some (r, ts'') => pArithRest fuel (.binop l .sub r) ts''
    | _ => some (l, ts)

def pTerm : Nat → List Tok → Option (Expr × List Tok)
  | 0, _ => none
  | fuel + 1, ts =>
    match pFactor fuel ts with
    | none => none
    | some (l, ts) => pTermRest fuel l ts

def pTermRest : Nat → Expr → List Tok → Option (Expr × List Tok)
  | 0, _, _ => none
  | fuel + 1, l, ts =>
    match ts with
    | .sym .mult :: ts' =>
      match pFactor fuel ts' with
      | none => none
      | some (r, ts'') => pTermRest fuel (.binop l .mult r) ts''
    | .sym .div :: ts' =>
      match pFactor fuel ts' with
      | none => none
      | some (r, ts'') => pTermRest fuel (.binop l .div r) ts''
    | .sym .floordiv :: ts' =>
      match pFactor fuel ts' with
      | none => none
      | some (r, ts'') => pTermRest fuel (.binop l .floordiv r) ts''
    | .sym .mod :: ts' =>
      match pFactor fuel ts' with
      | none => none
      | some (r, ts'') => pTermRest fuel (.binop l .mod r) ts''
    | .sym .matmult :: ts' =>
      match pFactor fuel ts' with
      | none => none
      | some (r, ts'') => pTermRest fuel (.binop l .matmult r) ts''
    | _ => some (l, ts)

/-- `factor`: unary `+ - ~` bind tighter than any binary operator except
`**`. -/
def pFactor : Nat → List Tok → Option (Expr × List Tok)
  | 0, _ => none
  | fuel + 1, ts =>
    match ts with
    | .sym .sub :: ts' =>
      match pFactor fuel ts' with
      | none => none
      | some (e, ts'') => some (.unop .usub e, ts'')
    | .sym .add :: ts' =>
      match pFactor fuel ts' with
      | none => none
      | some (e, ts'') => some (.unop .uadd e, ts'')
    | .tilde :: ts' =>
      match pFactor fuel ts' with
      | none => none
      | some (e, ts'') => some (.unop .invert e, ts'')
    | _ => pPower fuel ts

/-- `power`: right-associative, its exponent is a `factor`. -/
def pPower : Nat → List Tok → Option (Expr × List Tok)
  | 0, _ => none
  | fuel + 1, ts =>
    match pPostfix fuel ts with
    | none => none
    | some (b, ts) =>
      match ts with
      | .sym .pow :: ts' =>
        match pFactor fuel ts' with
        | none => none
        | some (e, ts'') => some (.binop b .pow e, ts'')
      | _ => some (b, ts)

def pPostfix : Nat → List Tok → Option (Expr × List Tok)
  | 0, _ => none
  | fuel + 1, ts =>
    match pAtom fuel ts with
    | none => none
    | some (a, ts) => pPostfixRest fuel a ts

def pPostfixRest : Nat → Expr → List Tok → Option (Expr × List Tok)
  | 0, _, _ => none
  | fuel + 1, a, ts =>
    match ts with
    | .dot :: .ident s :: ts' => pPostfixRest fuel (.attr a s) ts'
    | .lpar :: .rpar :: ts' => pPostfixRest fuel (.call a []) ts'
    | .lpar :: ts' =>
      match pArgs fuel [] ts' with
      | none => none
      | some (args, ts'') => pPostfixRest fuel (.call a args) ts''
    | _ => some (a, ts)

def pArgs : Nat → List Expr → List Tok → Option (List Expr × List Tok)
  | 0, _, _ => none
  | fuel + 1, acc, ts =>
    match pOr fuel ts with
    | none => none
    | some (e, ts') =>
      match ts' with
      | .comma :: ts'' => pArgs fuel (acc ++ [e]) ts''
      | .rpar :: ts'' => some (acc ++ [e], ts'')
      | _ => none

def pAtom : Nat → List Tok → Option (Expr × List Tok)
  | 0, _ => none
  | fuel + 1, ts =>
    match ts with
    | .ident s :: ts' => some (.name s, ts')
    | .num n :: ts' => some (.const n, ts')
    | .lpar :: ts' =>
      match pOr fuel ts' with
      | none => none
      | some (e, ts'') =>
        match ts'' with
        | .rpar :: ts3 => some (e, ts3)
        | _ => none
    | .lbrack :: .rbrack :: ts' => some (.listE [], ts')
    | .lbrack :: ts' =>
      match pElems fuel [] ts' with
      | none => none
      | some (es, ts'') => some (.listE es, ts'')
    | _ => none

def pElems : Nat → List Expr → List Tok → Option (List Expr × List Tok)
  | 0, _, _ => none
  | fuel + 1, acc, ts =>
    match pOr fuel ts with
    | none => none
    | some (e, ts') =>
      match ts' with
      | .comma :: ts'' => pElems fuel (acc ++ [e]) ts''
      | .rbrack :: ts'' => some (acc ++ [e], ts'')
      | _ => none

end

/-- `ast.parse(s, mode="eval")` on the fragment: tokenize, parse an
`or`-expression, require the whole input consumed. -/
def pyParse (s : String) : Option Expr :=
  match tokenize s.data.length s.data with
  | none => none
  | some ts =>
    match pOr (16 * (ts.length + 2)) ts with
    | some (e, []) => some e
    | _ => none

/-- Counterexample to claim C7: the tree of `(a or b) == c` — a comparison
whose left operand is a boolean operation, a sub-expression binding less
tightly than its parent — is unparsed with no parentheses, and re-parsing
the unparsed string yields a tree with a different evaluation order: an `or`
at the root instead of the comparison. -/
theorem unparse_reparse_counterexample :
    unparse (Expr.cmp (.boolop .or [.name "a", .name "b"]) [(.eq, .name "c")]) =
      "a or b == c" ∧
    pyParse "a or b == c" =
      some (.boolop .or [.name "a", .cmp (.name "b") [(.eq, .name "c")]]) ∧
    Expr.boolop .or [.name "a", .cmp (.name "b") [(.eq, .name "c")]] ≠
      Expr.cmp (.boolop .or [.name "a", .name "b"]) [(.eq, .name "c")] := by
  refine ⟨rfl, rfl, ?_⟩
  intro h
  exact Expr.noConfusion h

/-- Claim C7 as amended: `unparse` reintroduces parentheses exactly around a
boolean operation nested directly under a boolean operation, around a binary
left operand whose operator binds less tightly than its parent's or when
both are the right-associative power operator, around a binary right operand
of strictly lower precedence, and around a binary or boolean operand of a
unary operator of higher precedence; operands of comparisons and arguments
of calls are never parenthesized, so re-parsing preserves evaluation order
only for trees without those shapes. -/
theorem unparse_paren_spec :
    (∀ (l : Expr) (op : BOp) (r : Expr),
      unparse (.binop l op r) =
        parenIf (specParenLeft l op) (unparse l) ++ bopStr op ++
          parenIf (specParenRight r op) (unparse r)) ∧
    (∀ (op : UOp) (e : Expr),
      unparse (.unop op e) = uopStr op ++ parenIf (specParenUnary e op) (unparse e)) ∧
    (∀ (k : BoolK) (vs : List Expr),
      unparse (.boolop k vs) =
        joinWith (boolStr k) (vs.map (fun v => parenIf (specParenBool v) (unparse v)))) ∧
    (∀ (l : Expr) (pairs : List (CmpOp × Expr)),
      unparse (.cmp l pairs) =
        unparse l ++ concatStrs (pairs.map (fun p => cmpStr p.1 ++ unparse p.2))) ∧
    (∀ (f : Expr) (args : List Expr),
      unparse (.call f args) = unparse f ++ "(" ++ joinComma (args.map unparse) ++ ")") := by
  refine ⟨?_, ?_, ?_, ?_, ?_⟩
  · intro l op r
    rw [unparse, leftParen_eq, rightParen_eq]
  · intro op e
    rw [unparse, unaryParen_eq]
  · intro k vs
    rw [unparse, unparseBoolItems_eq]
  · intro l pairs
    rw [unparse, unparseCmps_eq]
  · intro f args
    rw [unparse, unparseList_eq]

end NFStest
